import Mathlib

/-!
# UnicycleTrajectoryGenerator: the replanning coordinator

A shallow embedding of `src/src/UnicycleTrajectoryGenerator.cpp`.

* `double` is an abstract scalar type `α` (a linear order with addition); the
  statements about yaw wrapping instantiate it with the real numbers.
* The generator object holds the two `shared_ptr` members `m_left`, `m_right`
  and the state of the two base classes (the unicycle planner and the feet
  interpolator).  The two pointers are assigned from the caller's pointers
  without a distinctness check, so they refer either to two different
  `FootPrint` objects or to one and the same object.  The record `Generator`
  is the generator in the first configuration, the record `SharedGenerator`
  the generator in the second one, where a write through either pointer shows
  through the other.
* A C++ method `bool f(args)` is a function `Generator → Bool × Generator`;
  `a && b` runs `b` only when `a` returned `true`.
* The collaborators that the file calls but does not define (planner,
  interpolator, geometry library) are the fields of `Env`.
-/

namespace Unicycle

/-! ## Data model -/

/-- A planar vector (`iDynTree::Vector2`). -/
structure Vector2 (α : Type) where
  x : α
  y : α
deriving DecidableEq, Repr

/-- A footstep: planar position, yaw angle and impact time. -/
structure Step (α : Type) where
  position : Vector2 α
  angle : α
  impactTime : α
deriving DecidableEq, Repr

/-- Boundary condition of the weight/ZMP mode (`InitialState` of
`FootPrintsInterpolator.h`). -/
structure InitialState (α : Type) where
  initialPosition : α
  initialVelocity : α
  initialAcceleration : α
deriving DecidableEq, Repr

/-- Boundary condition of the DCM mode. -/
structure DCMInitialState (α : Type) where
  initialPosition : Vector2 α
  initialVelocity : Vector2 α
deriving DecidableEq, Repr

/-- Modelled from the spec: the footstep container `FootPrint`, whose
implementation is absent from the sources.  It is the ordered list of the
steps of one foot. -/
abbrev FootPrint (α : Type) := List (Step α)

namespace FootPrint

variable {α : Type}

/-- Modelled from the spec: `FootPrint::clearSteps`, absent from the sources;
it empties the sequence. -/
def clearSteps (_fp : FootPrint α) : FootPrint α := []

/-- Modelled from the spec: `FootPrint::getLastStep`, absent from the sources;
it writes the last step of the sequence into the output argument and reports
whether there was one. -/
def getLastStep (fp : FootPrint α) (out : Step α) : Bool × Step α :=
  match fp.getLast? with
  | some s => (true, s)
  | none => (false, out)

/-- Modelled from the spec: `FootPrint::addStep`, absent from the sources.  A
step is appended when it is valid and its impact time is strictly greater than
the one of the last step ("impact times strictly increasing"); otherwise the
step is rejected and the sequence is unchanged.  The spec names an "invalid
measured step" without defining validity, so the domain check is the parameter
`valid`. -/
def addStep [LinearOrder α] (valid : Step α → Bool) (fp : FootPrint α) (newStep : Step α) :
    Bool × FootPrint α :=
  if valid newStep then
    match fp.getLast? with
    | none => (true, fp ++ [newStep])
    | some last =>
      if last.impactTime < newStep.impactTime then (true, fp ++ [newStep]) else (false, fp)
  else (false, fp)

/-- Modelled from the spec: `FootPrint::keepOnlyPresentStep`, absent from the
sources.  The present step is the latest step whose impact time is at or
before `time`; on success the sequence holds that step only, and the call
fails, leaving the sequence as it was, when there is no such step. -/
def keepOnlyPresentStep [LinearOrder α] (fp : FootPrint α) (time : α) : Bool × FootPrint α :=
  match (fp.filter (fun s => decide (s.impactTime ≤ time))).getLast? with
  | some present => (true, [present])
  | none => (false, fp)

end FootPrint

/-- The part of the geometry library (`iDynTree::Rotation`) used by the
generator: rotation about the vertical axis, inverse, composition and the yaw
component of the roll-pitch-yaw decomposition. -/
structure RotationLib (α R : Type) where
  RotZ : α → R
  inverse : R → R
  mul : R → R → R
  yaw : R → α

/-- Result of `UnicyclePlanner::computeNewSteps`: the returned flag, the
planner afterwards and the two footstep sequences it was given, as it left
them. -/
structure PlanResult (α P : Type) where
  ok : Bool
  planner : P
  left : FootPrint α
  right : FootPrint α

/-- The collaborators of the generator.  `P` is the state of the planner base
class, `I` the state of the interpolator base class (configuration and dense
output buffers), `R` the rotation type of the geometry library. -/
structure Env (α P I R : Type) where
  /-- value of a default-constructed `Step` local -/
  uninit : Step α
  /-- domain check of `FootPrint::addStep` -/
  valid : Step α → Bool
  rot : RotationLib α R
  setEndTime : P → α → Bool × P
  computeNewSteps : P → FootPrint α → FootPrint α → α → PlanResult α P
  /-- the overload `interpolate(left, right, initTime, dT, weightInLeftAtMergePoint)` -/
  interpolateW : I → FootPrint α → FootPrint α → α → α → InitialState α → Bool × I
  /-- the overload `interpolate(left, right, initTime, dT)` -/
  interpolate : I → FootPrint α → FootPrint α → α → α → Bool × I
  /-- the overload `interpolate(left, right, initTime, dT, weight, previousL, previousR)` -/
  interpolateP : I → FootPrint α → FootPrint α → α → α → InitialState α → Step α → Step α →
    Bool × I
  /-- the overload `interpolateDCM(left, right, initTime, dT)` -/
  interpolateDCM : I → FootPrint α → FootPrint α → α → α → Bool × I
  /-- the overload `interpolateDCM(left, right, initTime, dT, boundary)` -/
  interpolateDCMB : I → FootPrint α → FootPrint α → α → α → DCMInitialState α → Bool × I

/-- The generator object when `m_left` and `m_right` point to two different
`FootPrint` objects: the two retained sequences and the two base classes.  The
configuration in which both pointers refer to one object is
`SharedGenerator`. -/
structure Generator (α P I : Type) where
  m_left : FootPrint α
  m_right : FootPrint α
  planner : P
  interp : I
deriving DecidableEq

section Code

variable {α P I R : Type} [LinearOrder α] [Add α]

/-- The helper `UnicycleTrajectoryGenerator::clearAndAddMeasuredStep`: returns the flag of
`addStep` and the foot afterwards. -/
def clearAndAddMeasuredStep (rot : RotationLib α R) (valid : Step α → Bool)
    (foot : FootPrint α) (previousStep : Step α) (measuredPosition : Vector2 α)
    (measuredAngle : α) : Bool × FootPrint α :=
  let foot := FootPrint.clearSteps foot
  let correctedStep := previousStep
  let correctedStep := { correctedStep with position := measuredPosition }
  let initialRotation := rot.RotZ previousStep.angle
  let measuredRotation := rot.RotZ measuredAngle
  let correctedStep := { correctedStep with
    angle := previousStep.angle + rot.yaw (rot.mul (rot.inverse initialRotation) measuredRotation) }
  FootPrint.addStep valid foot correctedStep

/-- A `bool` method of the generator. -/
abbrev Call (α P I : Type) := Generator α P I → Bool × Generator α P I

/-- The C++ short-circuit conjunction `a && b` of two method calls. -/
def andThen (a b : Call α P I) : Call α P I := fun s =>
  match a s with
  | (true, s) => b s
  | (false, s) => (false, s)

/-! ### Calls on the members and base classes -/

/-- The call `m_left->keepOnlyPresentStep(initTime)`. -/
def keepLeft (initTime : α) : Call α P I := fun s =>
  let r := FootPrint.keepOnlyPresentStep s.m_left initTime
  (r.1, { s with m_left := r.2 })

/-- The call `m_right->keepOnlyPresentStep(initTime)`. -/
def keepRight (initTime : α) : Call α P I := fun s =>
  let r := FootPrint.keepOnlyPresentStep s.m_right initTime
  (r.1, { s with m_right := r.2 })

/-- The call `m_left->addStep(step)`. -/
def addLeft (E : Env α P I R) (step : Step α) : Call α P I := fun s =>
  let r := FootPrint.addStep E.valid s.m_left step
  (r.1, { s with m_left := r.2 })

/-- The call `m_right->addStep(step)`. -/
def addRight (E : Env α P I R) (step : Step α) : Call α P I := fun s =>
  let r := FootPrint.addStep E.valid s.m_right step
  (r.1, { s with m_right := r.2 })

/-- The call `clearAndAddMeasuredStep(m_left, previousStep, position, angle)`. -/
def correctLeftFoot (E : Env α P I R) (previousStep : Step α) (measuredPosition : Vector2 α)
    (measuredAngle : α) : Call α P I := fun s =>
  let r := clearAndAddMeasuredStep E.rot E.valid s.m_left previousStep measuredPosition
    measuredAngle
  (r.1, { s with m_left := r.2 })

/-- The call `clearAndAddMeasuredStep(m_right, previousStep, position, angle)`. -/
def correctRightFoot (E : Env α P I R) (previousStep : Step α) (measuredPosition : Vector2 α)
    (measuredAngle : α) : Call α P I := fun s =>
  let r := clearAndAddMeasuredStep E.rot E.valid s.m_right previousStep measuredPosition
    measuredAngle
  (r.1, { s with m_right := r.2 })

/-- The inherited call `setEndTime(endTime)`. -/
def setEndTime (E : Env α P I R) (endTime : α) : Call α P I := fun s =>
  let r := E.setEndTime s.planner endTime
  (r.1, { s with planner := r.2 })

/-- The inherited call `computeNewSteps(m_left, m_right, initTime)`; the planner
works on the two pointed sequences in place. -/
def computeNewSteps (E : Env α P I R) (initTime : α) : Call α P I := fun s =>
  let r := E.computeNewSteps s.planner s.m_left s.m_right initTime
  (r.ok, { s with m_left := r.left, m_right := r.right, planner := r.planner })

/-- The inherited call `interpolate(*m_left, *m_right, initTime, dT, weight)`. -/
def interpolateW (E : Env α P I R) (initTime dT : α) (w : InitialState α) : Call α P I :=
  fun s =>
  let r := E.interpolateW s.interp s.m_left s.m_right initTime dT w
  (r.1, { s with interp := r.2 })

/-- The inherited call `interpolate(*m_left, *m_right, initTime, dT)`. -/
def interpolate (E : Env α P I R) (initTime dT : α) : Call α P I := fun s =>
  let r := E.interpolate s.interp s.m_left s.m_right initTime dT
  (r.1, { s with interp := r.2 })

/-- The inherited call
`interpolate(*m_left, *m_right, initTime, dT, weight, previousL, previousR)`. -/
def interpolateP (E : Env α P I R) (initTime dT : α) (w : InitialState α)
    (previousL previousR : Step α) : Call α P I := fun s =>
  let r := E.interpolateP s.interp s.m_left s.m_right initTime dT w previousL previousR
  (r.1, { s with interp := r.2 })

/-- The inherited call `interpolateDCM(*m_left, *m_right, initTime, dT)`. -/
def interpolateDCM (E : Env α P I R) (initTime dT : α) : Call α P I := fun s =>
  let r := E.interpolateDCM s.interp s.m_left s.m_right initTime dT
  (r.1, { s with interp := r.2 })

/-- The inherited call `interpolateDCM(*m_left, *m_right, initTime, dT, boundary)`. -/
def interpolateDCMB (E : Env α P I R) (initTime dT : α) (b : DCMInitialState α) :
    Call α P I := fun s =>
  let r := E.interpolateDCMB s.interp s.m_left s.m_right initTime dT b
  (r.1, { s with interp := r.2 })

/-! ### The public methods

C++ overloads of one name are told apart by a suffix: `FeetW`/`Feet` take the
two footprints, `Horizon` takes the end time, `Steps` takes two measured
steps, `Single` takes the `correctLeft` flag and one measurement, `Both` takes
one measurement per foot. -/

/-- The overload `generateAndInterpolate(leftFoot, rightFoot, initTime, dT,
weightInLeftAtMergePoint)`. -/
def generateAndInterpolateFeetW (E : Env α P I R) (leftFoot rightFoot : FootPrint α)
    (initTime dT : α) (weightInLeftAtMergePoint : InitialState α) : Call α P I := fun s =>
  let s := { s with m_left := leftFoot }
  let s := { s with m_right := rightFoot }
  andThen (computeNewSteps E initTime) (interpolateW E initTime dT weightInLeftAtMergePoint) s

/-- The overload `generateAndInterpolate(leftFoot, rightFoot, initTime, dT)`. -/
def generateAndInterpolateFeet (E : Env α P I R) (leftFoot rightFoot : FootPrint α)
    (initTime dT : α) : Call α P I := fun s =>
  let s := { s with m_left := leftFoot }
  let s := { s with m_right := rightFoot }
  andThen (computeNewSteps E initTime) (interpolate E initTime dT) s

/-- The overload `generateAndInterpolate(initTime, dT, endTime)`. -/
def generateAndInterpolateHorizon (E : Env α P I R) (initTime dT endTime : α) : Call α P I :=
  fun s =>
  let s := { s with m_left := FootPrint.clearSteps s.m_left }
  let s := { s with m_right := FootPrint.clearSteps s.m_right }
  andThen (andThen (setEndTime E endTime) (computeNewSteps E initTime))
    (interpolate E initTime dT) s

/-- The overload `generateAndInterpolate(leftFoot, rightFoot, initTime, dT, endTime)`. -/
def generateAndInterpolateFeetHorizon (E : Env α P I R) (leftFoot rightFoot : FootPrint α)
    (initTime dT endTime : α) : Call α P I := fun s =>
  let s := { s with m_left := leftFoot }
  let s := { s with m_right := rightFoot }
  andThen (andThen (setEndTime E endTime) (computeNewSteps E initTime))
    (interpolate E initTime dT) s

/-- The overload `reGenerate(initTime, dT, endTime, weightInLeftAtMergePoint)`. -/
def reGenerate (E : Env α P I R) (initTime dT endTime : α)
    (weightInLeftAtMergePoint : InitialState α) : Call α P I := fun s =>
  match keepLeft initTime s with
  | (false, s) => (false, s)
  | (true, s) =>
  match keepRight initTime s with
  | (false, s) => (false, s)
  | (true, s) =>
  andThen (andThen (setEndTime E endTime) (computeNewSteps E initTime))
    (interpolateW E initTime dT weightInLeftAtMergePoint) s

/-- The overload `reGenerate(initTime, dT, endTime, weightInLeftAtMergePoint,
measuredLeft, measuredRight)`. -/
def reGenerateSteps (E : Env α P I R) (initTime dT endTime : α)
    (weightInLeftAtMergePoint : InitialState α) (measuredLeft measuredRight : Step α) :
    Call α P I := fun s =>
  let previousL := E.uninit
  let previousR := E.uninit
  match keepLeft initTime s with
  | (false, s) => (false, s)
  | (true, s) =>
  match keepRight initTime s with
  | (false, s) => (false, s)
  | (true, s) =>
  let previousL := (FootPrint.getLastStep s.m_left previousL).2
  let previousR := (FootPrint.getLastStep s.m_right previousR).2
  let s := { s with m_left := FootPrint.clearSteps s.m_left }
  let s := { s with m_right := FootPrint.clearSteps s.m_right }
  match addLeft E measuredLeft s with
  | (false, s) => (false, s)
  | (true, s) =>
  match addRight E measuredRight s with
  | (false, s) => (false, s)
  | (true, s) =>
  andThen (andThen (setEndTime E endTime) (computeNewSteps E initTime))
    (interpolateP E initTime dT weightInLeftAtMergePoint previousL previousR) s

/-- The overload `reGenerate(initTime, dT, endTime, weightInLeftAtMergePoint,
correctLeft, measuredPosition, measuredAngle)`. -/
def reGenerateSingle (E : Env α P I R) (initTime dT endTime : α)
    (weightInLeftAtMergePoint : InitialState α) (correctLeft : Bool)
    (measuredPosition : Vector2 α) (measuredAngle : α) : Call α P I := fun s =>
  let previousL := E.uninit
  let previousR := E.uninit
  match keepLeft initTime s with
  | (false, s) => (false, s)
  | (true, s) =>
  match keepRight initTime s with
  | (false, s) => (false, s)
  | (true, s) =>
  let previousL := (FootPrint.getLastStep s.m_left previousL).2
  let previousR := (FootPrint.getLastStep s.m_right previousR).2
  let correctedStep := if correctLeft then previousL else previousR
  match (if correctLeft then correctLeftFoot E correctedStep measuredPosition measuredAngle s
      else correctRightFoot E correctedStep measuredPosition measuredAngle s) with
  | (false, s) => (false, s)
  | (true, s) =>
  andThen (andThen (setEndTime E endTime) (computeNewSteps E initTime))
    (interpolateP E initTime dT weightInLeftAtMergePoint previousL previousR) s

/-- The overload `reGenerate(initTime, dT, endTime, weightInLeftAtMergePoint,
measuredLeftPosition, measuredLeftAngle, measuredRightPosition,
measuredRightAngle)`. -/
def reGenerateBoth (E : Env α P I R) (initTime dT endTime : α)
    (weightInLeftAtMergePoint : InitialState α) (measuredLeftPosition : Vector2 α)
    (measuredLeftAngle : α) (measuredRightPosition : Vector2 α) (measuredRightAngle : α) :
    Call α P I := fun s =>
  let previousL := E.uninit
  let previousR := E.uninit
  match keepLeft initTime s with
  | (false, s) => (false, s)
  | (true, s) =>
  match keepRight initTime s with
  | (false, s) => (false, s)
  | (true, s) =>
  let previousL := (FootPrint.getLastStep s.m_left previousL).2
  let previousR := (FootPrint.getLastStep s.m_right previousR).2
  match correctLeftFoot E previousL measuredLeftPosition measuredLeftAngle s with
  | (false, s) => (false, s)
  | (true, s) =>
  match correctRightFoot E previousR measuredRightPosition measuredRightAngle s with
  | (false, s) => (false, s)
  | (true, s) =>
  andThen (andThen (setEndTime E endTime) (computeNewSteps E initTime))
    (interpolateP E initTime dT weightInLeftAtMergePoint previousL previousR) s

/-- The overload `generateAndInterpolateDCM(initTime, dT, endTime)`. -/
def generateAndInterpolateDCMHorizon (E : Env α P I R) (initTime dT endTime : α) :
    Call α P I := fun s =>
  let s := { s with m_left := FootPrint.clearSteps s.m_left }
  let s := { s with m_right := FootPrint.clearSteps s.m_right }
  andThen (andThen (setEndTime E endTime) (computeNewSteps E initTime))
    (interpolateDCM E initTime dT) s

/-- The overload `generateAndInterpolateDCM(leftFoot, rightFoot, initTime, dT,
endTime)`. -/
def generateAndInterpolateDCMFeetHorizon (E : Env α P I R) (leftFoot rightFoot : FootPrint α)
    (initTime dT endTime : α) : Call α P I := fun s =>
  let s := { s with m_left := leftFoot }
  let s := { s with m_right := rightFoot }
  andThen (andThen (setEndTime E endTime) (computeNewSteps E initTime))
    (interpolateDCM E initTime dT) s

/-- The overload `reGenerateDCM(initTime, dT, endTime,
DCMBoundaryConditionAtMergePoint)`. -/
def reGenerateDCM (E : Env α P I R) (initTime dT endTime : α)
    (DCMBoundaryConditionAtMergePoint : DCMInitialState α) : Call α P I := fun s =>
  match keepLeft initTime s with
  | (false, s) => (false, s)
  | (true, s) =>
  match keepRight initTime s with
  | (false, s) => (false, s)
  | (true, s) =>
  andThen (andThen (setEndTime E endTime) (computeNewSteps E initTime))
    (interpolateDCMB E initTime dT DCMBoundaryConditionAtMergePoint) s

/-- The overload `reGenerateDCM(initTime, dT, endTime, boundary position,
boundary velocity, correctLeft, measuredPosition, measuredAngle)`. -/
def reGenerateDCMSingle (E : Env α P I R) (initTime dT endTime : α)
    (DCMBoundaryConditionAtMergePointPosition DCMBoundaryConditionAtMergePointVelocity :
      Vector2 α)
    (correctLeft : Bool) (measuredPosition : Vector2 α) (measuredAngle : α) :
    Call α P I := fun s =>
  let DCMBoundaryConditionAtMergePoint : DCMInitialState α :=
    { initialPosition := DCMBoundaryConditionAtMergePointPosition
      initialVelocity := DCMBoundaryConditionAtMergePointVelocity }
  let previousL := E.uninit
  let previousR := E.uninit
  match keepLeft initTime s with
  | (false, s) => (false, s)
  | (true, s) =>
  match keepRight initTime s with
  | (false, s) => (false, s)
  | (true, s) =>
  let previousL := (FootPrint.getLastStep s.m_left previousL).2
  let previousR := (FootPrint.getLastStep s.m_right previousR).2
  let measuredFoot := E.uninit
  let measuredFoot := { measuredFoot with position := measuredPosition }
  let measuredFoot := { measuredFoot with angle := measuredAngle }
  if correctLeft then
    let s := { s with m_left := FootPrint.clearSteps s.m_left }
    let measuredFoot := { measuredFoot with impactTime := previousL.impactTime }
    match addLeft E measuredFoot s with
    | (false, s) => (false, s)
    | (true, s) =>
    andThen (andThen (setEndTime E endTime) (computeNewSteps E initTime))
      (interpolateDCMB E initTime dT DCMBoundaryConditionAtMergePoint) s
  else
    let s := { s with m_right := FootPrint.clearSteps s.m_right }
    let measuredFoot := { measuredFoot with impactTime := previousR.impactTime }
    match addRight E measuredFoot s with
    | (false, s) => (false, s)
    | (true, s) =>
    andThen (andThen (setEndTime E endTime) (computeNewSteps E initTime))
      (interpolateDCMB E initTime dT DCMBoundaryConditionAtMergePoint) s

/-- The overload `reGenerateDCM(initTime, dT, endTime, boundary position,
boundary velocity, measuredLeftPosition, measuredLeftAngle,
measuredRightPosition, measuredRightAngle)`. -/
def reGenerateDCMBoth (E : Env α P I R) (initTime dT endTime : α)
    (DCMBoundaryConditionAtMergePointPosition DCMBoundaryConditionAtMergePointVelocity :
      Vector2 α)
    (measuredLeftPosition : Vector2 α) (measuredLeftAngle : α)
    (measuredRightPosition : Vector2 α) (measuredRightAngle : α) : Call α P I := fun s =>
  let DCMBoundaryConditionAtMergePoint : DCMInitialState α :=
    { initialPosition := DCMBoundaryConditionAtMergePointPosition
      initialVelocity := DCMBoundaryConditionAtMergePointVelocity }
  let previousL := E.uninit
  let previousR := E.uninit
  match keepLeft initTime s with
  | (false, s) => (false, s)
  | (true, s) =>
  match keepRight initTime s with
  | (false, s) => (false, s)
  | (true, s) =>
  let previousL := (FootPrint.getLastStep s.m_left previousL).2
  let previousR := (FootPrint.getLastStep s.m_right previousR).2
  let s := { s with m_left := FootPrint.clearSteps s.m_left }
  let s := { s with m_right := FootPrint.clearSteps s.m_right }
  let measuredLeft := E.uninit
  let measuredRight := E.uninit
  let measuredLeft := { measuredLeft with impactTime := previousL.impactTime }
  let measuredLeft := { measuredLeft with position := measuredLeftPosition }
  let measuredLeft := { measuredLeft with angle := measuredLeftAngle }
  let measuredRight := { measuredRight with impactTime := previousR.impactTime }
  let measuredRight := { measuredRight with position := measuredRightPosition }
  let measuredRight := { measuredRight with angle := measuredRightAngle }
  match addLeft E measuredLeft s with
  | (false, s) => (false, s)
  | (true, s) =>
  match addRight E measuredRight s with
  | (false, s) => (false, s)
  | (true, s) =>
  andThen (andThen (setEndTime E endTime) (computeNewSteps E initTime))
    (interpolateDCMB E initTime dT DCMBoundaryConditionAtMergePoint) s

/-! ### The methods as one family -/

/-- A public generation or replanning call together with its arguments, one
constructor per C++ overload. -/
inductive Method (α : Type) where
  | generateAndInterpolateFeetW (leftFoot rightFoot : FootPrint α) (initTime dT : α)
      (weightInLeftAtMergePoint : InitialState α)
  | generateAndInterpolateFeet (leftFoot rightFoot : FootPrint α) (initTime dT : α)
  | generateAndInterpolateHorizon (initTime dT endTime : α)
  | generateAndInterpolateFeetHorizon (leftFoot rightFoot : FootPrint α)
      (initTime dT endTime : α)
  | reGenerate (initTime dT endTime : α) (weightInLeftAtMergePoint : InitialState α)
  | reGenerateSteps (initTime dT endTime : α) (weightInLeftAtMergePoint : InitialState α)
      (measuredLeft measuredRight : Step α)
  | reGenerateSingle (initTime dT endTime : α) (weightInLeftAtMergePoint : InitialState α)
      (correctLeft : Bool) (measuredPosition : Vector2 α) (measuredAngle : α)
  | reGenerateBoth (initTime dT endTime : α) (weightInLeftAtMergePoint : InitialState α)
      (measuredLeftPosition : Vector2 α) (measuredLeftAngle : α)
      (measuredRightPosition : Vector2 α) (measuredRightAngle : α)
  | generateAndInterpolateDCMHorizon (initTime dT endTime : α)
  | generateAndInterpolateDCMFeetHorizon (leftFoot rightFoot : FootPrint α)
      (initTime dT endTime : α)
  | reGenerateDCM (initTime dT endTime : α) (boundary : DCMInitialState α)
  | reGenerateDCMSingle (initTime dT endTime : α) (boundaryPosition boundaryVelocity : Vector2 α)
      (correctLeft : Bool) (measuredPosition : Vector2 α) (measuredAngle : α)
  | reGenerateDCMBoth (initTime dT endTime : α) (boundaryPosition boundaryVelocity : Vector2 α)
      (measuredLeftPosition : Vector2 α) (measuredLeftAngle : α)
      (measuredRightPosition : Vector2 α) (measuredRightAngle : α)

namespace Method

/-- Runs the method of the source that the constructor stands for. -/
def run (E : Env α P I R) : Method α → Call α P I
  | generateAndInterpolateFeetW l r t dT w => Unicycle.generateAndInterpolateFeetW E l r t dT w
  | generateAndInterpolateFeet l r t dT => Unicycle.generateAndInterpolateFeet E l r t dT
  | generateAndInterpolateHorizon t dT e => Unicycle.generateAndInterpolateHorizon E t dT e
  | generateAndInterpolateFeetHorizon l r t dT e =>
    Unicycle.generateAndInterpolateFeetHorizon E l r t dT e
  | reGenerate t dT e w => Unicycle.reGenerate E t dT e w
  | reGenerateSteps t dT e w mL mR => Unicycle.reGenerateSteps E t dT e w mL mR
  | reGenerateSingle t dT e w c m a => Unicycle.reGenerateSingle E t dT e w c m a
  | reGenerateBoth t dT e w mL aL mR aR => Unicycle.reGenerateBoth E t dT e w mL aL mR aR
  | generateAndInterpolateDCMHorizon t dT e => Unicycle.generateAndInterpolateDCMHorizon E t dT e
  | generateAndInterpolateDCMFeetHorizon l r t dT e =>
    Unicycle.generateAndInterpolateDCMFeetHorizon E l r t dT e
  | reGenerateDCM t dT e b => Unicycle.reGenerateDCM E t dT e b
  | reGenerateDCMSingle t dT e bp bv c m a => Unicycle.reGenerateDCMSingle E t dT e bp bv c m a
  | reGenerateDCMBoth t dT e bp bv mL aL mR aR =>
    Unicycle.reGenerateDCMBoth E t dT e bp bv mL aL mR aR

/-- The start time argument of a call. -/
def initTime : Method α → α
  | generateAndInterpolateFeetW _ _ t _ _ => t
  | generateAndInterpolateFeet _ _ t _ => t
  | generateAndInterpolateHorizon t _ _ => t
  | generateAndInterpolateFeetHorizon _ _ t _ _ => t
  | reGenerate t _ _ _ => t
  | reGenerateSteps t _ _ _ _ _ => t
  | reGenerateSingle t _ _ _ _ _ _ => t
  | reGenerateBoth t _ _ _ _ _ _ _ => t
  | generateAndInterpolateDCMHorizon t _ _ => t
  | generateAndInterpolateDCMFeetHorizon _ _ t _ _ => t
  | reGenerateDCM t _ _ _ => t
  | reGenerateDCMSingle t _ _ _ _ _ _ _ => t
  | reGenerateDCMBoth t _ _ _ _ _ _ _ _ => t

/-- The end time argument of a call, for the overloads that have one. -/
def endTime? : Method α → Option α
  | generateAndInterpolateFeetW _ _ _ _ _ => none
  | generateAndInterpolateFeet _ _ _ _ => none
  | generateAndInterpolateHorizon _ _ e => some e
  | generateAndInterpolateFeetHorizon _ _ _ _ e => some e
  | reGenerate _ _ e _ => some e
  | reGenerateSteps _ _ e _ _ _ => some e
  | reGenerateSingle _ _ e _ _ _ _ => some e
  | reGenerateBoth _ _ e _ _ _ _ _ => some e
  | generateAndInterpolateDCMHorizon _ _ e => some e
  | generateAndInterpolateDCMFeetHorizon _ _ _ _ e => some e
  | reGenerateDCM _ _ e _ => some e
  | reGenerateDCMSingle _ _ e _ _ _ _ _ => some e
  | reGenerateDCMBoth _ _ e _ _ _ _ _ _ => some e

/-- Whether the call is a replanning one (`reGenerate`, `reGenerateDCM`). -/
def isReplanning : Method α → Bool
  | reGenerate _ _ _ _ => true
  | reGenerateSteps _ _ _ _ _ _ => true
  | reGenerateSingle _ _ _ _ _ _ _ => true
  | reGenerateBoth _ _ _ _ _ _ _ _ => true
  | reGenerateDCM _ _ _ _ => true
  | reGenerateDCMSingle _ _ _ _ _ _ _ _ => true
  | reGenerateDCMBoth _ _ _ _ _ _ _ _ _ => true
  | _ => false

end Method

/-! ### The all-or-nothing rule, as the spec words it -/

/-- Runs the stages in order; the first stage that returns `false` ends the
call with `false`, and the call returns `true` when every stage did. -/
def runStages : List (Call α P I) → Call α P I
  | [] => fun s => (true, s)
  | f :: fs => fun s =>
    match f s with
    | (true, s) => runStages fs s
    | (false, s) => (false, s)

/-- Every stage of the list, run in order from `s`, returns `true`. -/
def AllPass : List (Call α P I) → Generator α P I → Prop
  | [], _ => True
  | f :: fs, s => (f s).1 = true ∧ AllPass fs (f s).2

/-- The generator after the stages of the list have run in order from `s`. -/
def stateAfter : List (Call α P I) → Generator α P I → Generator α P I
  | [], s => s
  | f :: fs, s => stateAfter fs (f s).2

/-- The step that `getLastStep` reads after a successful trimming of `fp`. -/
def previousStep (E : Env α P I R) (fp : FootPrint α) (initTime : α) : Step α :=
  (FootPrint.getLastStep (FootPrint.keepOnlyPresentStep fp initTime).2 E.uninit).2

/-- Both sequences are cleared, then the step is added to the left one. -/
def insertLeft (E : Env α P I R) (step : Step α) : Call α P I := fun s =>
  addLeft E step { s with m_left := FootPrint.clearSteps s.m_left,
                          m_right := FootPrint.clearSteps s.m_right }

/-- The left sequence is cleared, then the step is added to it. -/
def replaceLeft (E : Env α P I R) (step : Step α) : Call α P I := fun s =>
  addLeft E step { s with m_left := FootPrint.clearSteps s.m_left }

/-- The right sequence is cleared, then the step is added to it. -/
def replaceRight (E : Env α P I R) (step : Step α) : Call α P I := fun s =>
  addRight E step { s with m_right := FootPrint.clearSteps s.m_right }

/-- The step `correctedStep` that `clearAndAddMeasuredStep` builds from the
previous step and the measurement, before handing it to `addStep`. -/
def correctedStep (rot : RotationLib α R) (previousStep : Step α)
    (measuredPosition : Vector2 α) (measuredAngle : α) : Step α :=
  { position := measuredPosition
    angle := previousStep.angle
      + rot.yaw (rot.mul (rot.inverse (rot.RotZ previousStep.angle)) (rot.RotZ measuredAngle))
    impactTime := previousStep.impactTime }

/-- The step `measuredFoot` that the DCM replanning overloads build from the
previous step and the measurement, before handing it to `addStep`. -/
def measuredFoot (previousStep : Step α) (measuredPosition : Vector2 α) (measuredAngle : α) :
    Step α :=
  { position := measuredPosition, angle := measuredAngle,
    impactTime := previousStep.impactTime }

/-- The tail `setEndTime(endTime) && computeNewSteps(m_left, m_right, initTime)
&& interpolate(...)` shared by the replanning overloads, with the
interpolation call as a parameter. -/
def planAndInterpolate (E : Env α P I R) (initTime endTime : α) (interp : Call α P I) :
    Call α P I :=
  andThen (andThen (setEndTime E endTime) (computeNewSteps E initTime)) interp

namespace Method

/-- What a call does to the retained sequences before its first stage: the
fresh generations install the supplied footprints or clear the retained
ones. -/
def prepare : Method α → Generator α P I → Generator α P I
  | generateAndInterpolateFeetW l r _ _ _, s => { s with m_left := l, m_right := r }
  | generateAndInterpolateFeet l r _ _, s => { s with m_left := l, m_right := r }
  | generateAndInterpolateHorizon _ _ _, s => { s with m_left := [], m_right := [] }
  | generateAndInterpolateFeetHorizon l r _ _ _, s => { s with m_left := l, m_right := r }
  | generateAndInterpolateDCMHorizon _ _ _, s => { s with m_left := [], m_right := [] }
  | generateAndInterpolateDCMFeetHorizon l r _ _ _, s => { s with m_left := l, m_right := r }
  | _, s => s

/-- The stages of a call that come before the planner: trimming of the left
and of the right sequence, then the insertion of the measured steps; none for
a fresh generation.  The generator `s` is the one the call starts from; the
previous steps are read from it. -/
def prelude (E : Env α P I R) : Method α → Generator α P I → List (Call α P I)
  | reGenerate t _ _ _, _ => [keepLeft t, keepRight t]
  | reGenerateSteps t _ _ _ mL mR, _ => [keepLeft t, keepRight t, insertLeft E mL, addRight E mR]
  | reGenerateSingle t _ _ _ c m a, s =>
    [keepLeft t, keepRight t,
      if c then correctLeftFoot E (previousStep E s.m_left t) m a
      else correctRightFoot E (previousStep E s.m_right t) m a]
  | reGenerateBoth t _ _ _ mL aL mR aR, s =>
    [keepLeft t, keepRight t, correctLeftFoot E (previousStep E s.m_left t) mL aL,
      correctRightFoot E (previousStep E s.m_right t) mR aR]
  | reGenerateDCM t _ _ _, _ => [keepLeft t, keepRight t]
  | reGenerateDCMSingle t _ _ _ _ c m a, s =>
    [keepLeft t, keepRight t,
      if c then
        replaceLeft E
          { position := m, angle := a, impactTime := (previousStep E s.m_left t).impactTime }
      else
        replaceRight E
          { position := m, angle := a, impactTime := (previousStep E s.m_right t).impactTime }]
  | reGenerateDCMBoth t _ _ _ _ mL aL mR aR, s =>
    [keepLeft t, keepRight t,
      insertLeft E
        { position := mL, angle := aL, impactTime := (previousStep E s.m_left t).impactTime },
      addRight E
        { position := mR, angle := aR, impactTime := (previousStep E s.m_right t).impactTime }]
  | _, _ => []

/-- The stage that sets the planning horizon: `setEndTime` for the overloads
that take an end time, nothing for the others. -/
def horizon (E : Env α P I R) (m : Method α) : List (Call α P I) :=
  match m.endTime? with
  | some e => [setEndTime E e]
  | none => []

/-- The last stage of a call, the interpolation.  The generator `s` is the one
the call starts from; the previous steps are read from it. -/
def interpolation (E : Env α P I R) : Method α → Generator α P I → Call α P I
  | generateAndInterpolateFeetW _ _ t dT w, _ => interpolateW E t dT w
  | generateAndInterpolateFeet _ _ t dT, _ => interpolate E t dT
  | generateAndInterpolateHorizon t dT _, _ => interpolate E t dT
  | generateAndInterpolateFeetHorizon _ _ t dT _, _ => interpolate E t dT
  | reGenerate t dT _ w, _ => interpolateW E t dT w
  | reGenerateSteps t dT _ w _ _, s =>
    interpolateP E t dT w (previousStep E s.m_left t) (previousStep E s.m_right t)
  | reGenerateSingle t dT _ w _ _ _, s =>
    interpolateP E t dT w (previousStep E s.m_left t) (previousStep E s.m_right t)
  | reGenerateBoth t dT _ w _ _ _ _, s =>
    interpolateP E t dT w (previousStep E s.m_left t) (previousStep E s.m_right t)
  | generateAndInterpolateDCMHorizon t dT _, _ => interpolateDCM E t dT
  | generateAndInterpolateDCMFeetHorizon _ _ t dT _, _ => interpolateDCM E t dT
  | reGenerateDCM t dT _ b, _ => interpolateDCMB E t dT b
  | reGenerateDCMSingle t dT _ bp bv _ _ _, _ =>
    interpolateDCMB E t dT { initialPosition := bp, initialVelocity := bv }
  | reGenerateDCMBoth t dT _ bp bv _ _ _ _, _ =>
    interpolateDCMB E t dT { initialPosition := bp, initialVelocity := bv }

/-- The stages of a call before the interpolation. -/
def preStages (E : Env α P I R) (m : Method α) (s : Generator α P I) : List (Call α P I) :=
  m.prelude E s ++ m.horizon E ++ [computeNewSteps E m.initTime]

/-- All the stages of a call, in order. -/
def stages (E : Env α P I R) (m : Method α) (s : Generator α P I) : List (Call α P I) :=
  m.preStages E s ++ [m.interpolation E s]

end Method

end Code

/-! ## The generator with one object behind both pointers

`generateAndInterpolate(leftFoot, rightFoot, ...)` stores the caller's two
pointers as they are; when the caller passes one `FootPrint` object for both
feet, `m_left` and `m_right` refer to that one object from then on. -/

/-- Result of `UnicyclePlanner::computeNewSteps` when both pointer arguments
are one object: the returned flag, the planner afterwards and the object as
the planner left it. -/
structure SharedPlanResult (α P : Type) where
  ok : Bool
  planner : P
  both : FootPrint α

/-- The collaborators, together with the planner's behaviour when it is given
one object as both feet (it writes to its arguments in place, so that
behaviour is not determined by `computeNewSteps` on two objects).  The
interpolators only read their footprint arguments and are used as they are. -/
structure SharedEnv (α P I R : Type) extends Env α P I R where
  computeNewStepsShared : P → FootPrint α → α → SharedPlanResult α P

/-- The generator object when `m_left` and `m_right` point to one and the same
`FootPrint` object: `m_shared` is that object, read and written through either
pointer. -/
structure SharedGenerator (α P I : Type) where
  m_shared : FootPrint α
  planner : P
  interp : I
deriving DecidableEq

section SharedCode

variable {α P I R : Type} [LinearOrder α] [Add α]

/-- A `bool` method of the generator whose two pointers share one object. -/
abbrev SharedCall (α P I : Type) := SharedGenerator α P I → Bool × SharedGenerator α P I

/-- The C++ short-circuit conjunction `a && b` of two method calls. -/
def andThenShared (a b : SharedCall α P I) : SharedCall α P I := fun s =>
  match a s with
  | (true, s) => b s
  | (false, s) => (false, s)

/-- The call `keepOnlyPresentStep(initTime)` through `m_left` or `m_right`. -/
def keepShared (initTime : α) : SharedCall α P I := fun s =>
  let r := FootPrint.keepOnlyPresentStep s.m_shared initTime
  (r.1, { s with m_shared := r.2 })

/-- The call `addStep(step)` through `m_left` or `m_right`. -/
def addShared (E : Env α P I R) (step : Step α) : SharedCall α P I := fun s =>
  let r := FootPrint.addStep E.valid s.m_shared step
  (r.1, { s with m_shared := r.2 })

/-- The call `clearAndAddMeasuredStep(foot, previousStep, position, angle)`,
where `foot` is `m_left` or `m_right`. -/
def correctShared (E : Env α P I R) (previousStep : Step α) (measuredPosition : Vector2 α)
    (measuredAngle : α) : SharedCall α P I := fun s =>
  let r := clearAndAddMeasuredStep E.rot E.valid s.m_shared previousStep measuredPosition
    measuredAngle
  (r.1, { s with m_shared := r.2 })

/-- The inherited call `setEndTime(endTime)`. -/
def setEndTimeShared (E : Env α P I R) (endTime : α) : SharedCall α P I := fun s =>
  let r := E.setEndTime s.planner endTime
  (r.1, { s with planner := r.2 })

/-- The inherited call `computeNewSteps(m_left, m_right, initTime)` with one
object behind both pointers. -/
def computeNewStepsShared (E : SharedEnv α P I R) (initTime : α) : SharedCall α P I := fun s =>
  let r := E.computeNewStepsShared s.planner s.m_shared initTime
  (r.ok, { s with m_shared := r.both, planner := r.planner })

/-- The inherited call `interpolate(*m_left, *m_right, initTime, dT)`. -/
def interpolateShared (E : Env α P I R) (initTime dT : α) : SharedCall α P I := fun s =>
  let r := E.interpolate s.interp s.m_shared s.m_shared initTime dT
  (r.1, { s with interp := r.2 })

/-- The inherited call
`interpolate(*m_left, *m_right, initTime, dT, weight, previousL, previousR)`. -/
def interpolatePShared (E : Env α P I R) (initTime dT : α) (w : InitialState α)
    (previousL previousR : Step α) : SharedCall α P I := fun s =>
  let r := E.interpolateP s.interp s.m_shared s.m_shared initTime dT w previousL previousR
  (r.1, { s with interp := r.2 })

/-- The inherited call `interpolateDCM(*m_left, *m_right, initTime, dT, boundary)`. -/
def interpolateDCMBShared (E : Env α P I R) (initTime dT : α) (b : DCMInitialState α) :
    SharedCall α P I := fun s =>
  let r := E.interpolateDCMB s.interp s.m_shared s.m_shared initTime dT b
  (r.1, { s with interp := r.2 })

/-- The overload `generateAndInterpolate(leftFoot, rightFoot, initTime, dT)`
called with one object `foot` as `leftFoot` and as `rightFoot`: both members
point to it afterwards. -/
def generateAndInterpolateFeetSame (E : SharedEnv α P I R) (foot : FootPrint α)
    (initTime dT : α) : Generator α P I → Bool × SharedGenerator α P I := fun s =>
  let s : SharedGenerator α P I := { m_shared := foot, planner := s.planner, interp := s.interp }
  andThenShared (computeNewStepsShared E initTime) (interpolateShared E.toEnv initTime dT) s

/-- The overload `reGenerate(initTime, dT, endTime, weightInLeftAtMergePoint,
measuredLeft, measuredRight)` with one object behind both pointers. -/
def reGenerateStepsShared (E : SharedEnv α P I R) (initTime dT endTime : α)
    (weightInLeftAtMergePoint : InitialState α) (measuredLeft measuredRight : Step α) :
    SharedCall α P I := fun s =>
  let previousL := E.uninit
  let previousR := E.uninit
  match keepShared initTime s with
  | (false, s) => (false, s)
  | (true, s) =>
  match keepShared initTime s with
  | (false, s) => (false, s)
  | (true, s) =>
  let previousL := (FootPrint.getLastStep s.m_shared previousL).2
  let previousR := (FootPrint.getLastStep s.m_shared previousR).2
  let s := { s with m_shared := FootPrint.clearSteps s.m_shared }
  let s := { s with m_shared := FootPrint.clearSteps s.m_shared }
  match addShared E.toEnv measuredLeft s with
  | (false, s) => (false, s)
  | (true, s) =>
  match addShared E.toEnv measuredRight s with
  | (false, s) => (false, s)
  | (true, s) =>
  andThenShared (andThenShared (setEndTimeShared E.toEnv endTime)
      (computeNewStepsShared E initTime))
    (interpolatePShared E.toEnv initTime dT weightInLeftAtMergePoint previousL previousR) s

/-- The overload `reGenerate(initTime, dT, endTime, weightInLeftAtMergePoint,
correctLeft, measuredPosition, measuredAngle)` with one object behind both
pointers: `toBeCorrected` is that object whatever `correctLeft` is. -/
def reGenerateSingleShared (E : SharedEnv α P I R) (initTime dT endTime : α)
    (weightInLeftAtMergePoint : InitialState α) (correctLeft : Bool)
    (measuredPosition : Vector2 α) (measuredAngle : α) : SharedCall α P I := fun s =>
  let previousL := E.uninit
  let previousR := E.uninit
  match keepShared initTime s with
  | (false, s) => (false, s)
  | (true, s) =>
  match keepShared initTime s with
  | (false, s) => (false, s)
  | (true, s) =>
  let previousL := (FootPrint.getLastStep s.m_shared previousL).2
  let previousR := (FootPrint.getLastStep s.m_shared previousR).2
  let correctedStep := if correctLeft then previousL else previousR
  match correctShared E.toEnv correctedStep measuredPosition measuredAngle s with
  | (false, s) => (false, s)
  | (true, s) =>
  andThenShared (andThenShared (setEndTimeShared E.toEnv endTime)
      (computeNewStepsShared E initTime))
    (interpolatePShared E.toEnv initTime dT weightInLeftAtMergePoint previousL previousR) s

/-- The overload `reGenerateDCM(initTime, dT, endTime, boundary position,
boundary velocity, correctLeft, measuredPosition, measuredAngle)` with one
object behind both pointers. -/
def reGenerateDCMSingleShared (E : SharedEnv α P I R) (initTime dT endTime : α)
    (DCMBoundaryConditionAtMergePointPosition DCMBoundaryConditionAtMergePointVelocity :
      Vector2 α)
    (correctLeft : Bool) (measuredPosition : Vector2 α) (measuredAngle : α) :
    SharedCall α P I := fun s =>
  let DCMBoundaryConditionAtMergePoint : DCMInitialState α :=
    { initialPosition := DCMBoundaryConditionAtMergePointPosition
      initialVelocity := DCMBoundaryConditionAtMergePointVelocity }
  let previousL := E.uninit
  let previousR := E.uninit
  match keepShared initTime s with
  | (false, s) => (false, s)
  | (true, s) =>
  match keepShared initTime s with
  | (false, s) => (false, s)
  | (true, s) =>
  let previousL := (FootPrint.getLastStep s.m_shared previousL).2
  let previousR := (FootPrint.getLastStep s.m_shared previousR).2
  let measuredFoot := E.uninit
  let measuredFoot := { measuredFoot with position := measuredPosition }
  let measuredFoot := { measuredFoot with angle := measuredAngle }
  if correctLeft then
    let s := { s with m_shared := FootPrint.clearSteps s.m_shared }
    let measuredFoot := { measuredFoot with impactTime := previousL.impactTime }
    match addShared E.toEnv measuredFoot s with
    | (false, s) => (false, s)
    | (true, s) =>
    andThenShared (andThenShared (setEndTimeShared E.toEnv endTime)
        (computeNewStepsShared E initTime))
      (interpolateDCMBShared E.toEnv initTime dT DCMBoundaryConditionAtMergePoint) s
  else
    let s := { s with m_shared := FootPrint.clearSteps s.m_shared }
    let measuredFoot := { measuredFoot with impactTime := previousR.impactTime }
    match addShared E.toEnv measuredFoot s with
    | (false, s) => (false, s)
    | (true, s) =>
    andThenShared (andThenShared (setEndTimeShared E.toEnv endTime)
        (computeNewStepsShared E initTime))
      (interpolateDCMBShared E.toEnv initTime dT DCMBoundaryConditionAtMergePoint) s

/-- The tail `setEndTime(endTime) && computeNewSteps(m_left, m_right, initTime)
&& interpolate(...)` with one object behind both pointers, with the
interpolation call as a parameter. -/
def planAndInterpolateShared (E : SharedEnv α P I R) (initTime endTime : α)
    (interp : SharedCall α P I) : SharedCall α P I :=
  andThenShared (andThenShared (setEndTimeShared E.toEnv endTime)
    (computeNewStepsShared E initTime)) interp

end SharedCode

/-! ## The geometry library over the real numbers -/

/-- Two-argument arctangent over the reals: the angle in `(-π, π]` of the point
`(x, y)`, and `0` at the origin. -/
noncomputable def atan2 (y x : ℝ) : ℝ := Complex.arg ⟨x, y⟩

/-- The rotation library over exact real arithmetic, following
`iDynTree::Rotation`: `RotZ` builds the 3×3 matrix of a rotation about the
vertical axis, `inverse` transposes, `mul` is the matrix product and `yaw` is
the third component of `asRPY()`. -/
noncomputable def realRotation : RotationLib ℝ (Matrix (Fin 3) (Fin 3) ℝ) where
  RotZ := fun θ => !![Real.cos θ, -Real.sin θ, 0; Real.sin θ, Real.cos θ, 0; 0, 0, 1]
  inverse := fun M => M.transpose
  mul := fun A B => A * B
  yaw := fun M =>
    if M 2 0 < 1 then
      if -1 < M 2 0 then atan2 (M 1 0) (M 0 0)
      else -atan2 (-M 1 2) (M 1 1)
    else atan2 (-M 1 2) (M 1 1)

/-- The planner and the interpolator are functions of their arguments and
configuration only: setting the same end time again changes nothing,
`computeNewSteps` leaves the planner as it found it, and an interpolation run
again with the same arguments returns the same flag and output buffers. -/
def Env.Repeatable {α P I R : Type} (E : Env α P I R) : Prop :=
  (∀ p e, E.setEndTime (E.setEndTime p e).2 e = E.setEndTime p e)
  ∧ (∀ p l r t, (E.computeNewSteps p l r t).planner = p)
  ∧ (∀ i l r t dT, E.interpolate (E.interpolate i l r t dT).2 l r t dT
      = E.interpolate i l r t dT)
  ∧ (∀ i l r t dT, E.interpolateDCM (E.interpolateDCM i l r t dT).2 l r t dT
      = E.interpolateDCM i l r t dT)

/-! ## A concrete environment

Whole-number scalars and stub collaborators, to run the methods on concrete
inputs. -/

/-- Modelled from the spec: `UnicyclePlanner::setEndTime`, absent from the
sources.  The end time of the planning horizon is the planner's configuration
and the call overwrites it with the requested value. -/
def storeEndTime (_planner : ℤ) (endTime : ℤ) : Bool × ℤ := (true, endTime)

/-- Angles in whole units, unwrapped: a rotation is its angle, composition adds
and the inverse negates. -/
def demoRotation : RotationLib ℤ ℤ where
  RotZ := fun a => a
  inverse := fun r => -r
  mul := fun a b => a + b
  yaw := fun r => r

/-- A stub environment: a step is valid when its impact time is not negative,
the planner state is its end time, the planner adds no step, and each
interpolation writes its time arguments into the output buffer. -/
def demoEnv : Env ℤ ℤ (List ℤ) ℤ where
  uninit := { position := { x := 0, y := 0 }, angle := 0, impactTime := 0 }
  valid := fun st => decide (0 ≤ st.impactTime)
  rot := demoRotation
  setEndTime := storeEndTime
  computeNewSteps := fun p l r _ => { ok := true, planner := p, left := l, right := r }
  interpolateW := fun _ _ _ t dT _ => (true, [t, dT])
  interpolate := fun _ _ _ t dT => (true, [t, dT])
  interpolateP := fun _ _ _ t dT _ _ _ => (true, [t, dT])
  interpolateDCM := fun _ _ _ t dT => (true, [t, dT])
  interpolateDCMB := fun _ _ _ t dT _ => (true, [t, dT])

/-- A generator holding a plan of two steps per foot: the left foot lands at
times 0 and 20, the right foot at times 10 and 30; the planner's end time is
100 and the output buffer is empty. -/
def demoState : Generator ℤ ℤ (List ℤ) where
  m_left := [{ position := { x := 0, y := 1 }, angle := 0, impactTime := 0 },
             { position := { x := 2, y := 1 }, angle := 0, impactTime := 20 }]
  m_right := [{ position := { x := 1, y := -1 }, angle := 0, impactTime := 10 },
              { position := { x := 3, y := -1 }, angle := 0, impactTime := 30 }]
  planner := 100
  interp := []

/-- A weight boundary condition for the concrete runs. -/
def demoWeight : InitialState ℤ :=
  { initialPosition := 1, initialVelocity := 0, initialAcceleration := 0 }

/-- The stub environment with a planner that always fails. -/
def failingPlannerEnv : Env ℤ ℤ (List ℤ) ℤ :=
  { demoEnv with
    computeNewSteps := fun p l r _ => { ok := false, planner := p, left := l, right := r } }

/-- The stub environment with a planner that fails unless the start time is
before the end time it was given. -/
def horizonEnv : Env ℤ ℤ (List ℤ) ℤ :=
  { demoEnv with
    computeNewSteps := fun p l r t =>
      { ok := decide (t < p), planner := p, left := l, right := r } }

/-- A left footprint supplied by the caller: one step, landing at time 1. -/
def suppliedLeft : FootPrint ℤ :=
  [{ position := { x := 0, y := 2 }, angle := 0, impactTime := 1 }]

/-- A right footprint supplied by the caller: one step, landing at time 2. -/
def suppliedRight : FootPrint ℤ :=
  [{ position := { x := 0, y := -2 }, angle := 0, impactTime := 2 }]

/-- The stub environment with a planner that, given one object as both feet,
adds no step to it. -/
def demoSharedEnv : SharedEnv ℤ ℤ (List ℤ) ℤ :=
  { demoEnv with
    computeNewStepsShared := fun p f _ => { ok := true, planner := p, both := f } }

/-- The generator after `generateAndInterpolate(foot, foot, 0, 1)` with one
footprint object, holding steps at times 0 and 20, passed for both feet. -/
def demoSharedState : SharedGenerator ℤ ℤ (List ℤ) where
  m_shared := [{ position := { x := 0, y := 1 }, angle := 0, impactTime := 0 },
               { position := { x := 2, y := 1 }, angle := 0, impactTime := 20 }]
  planner := 100
  interp := [0, 1]

/-- An environment over the real numbers with the real rotation library: every
step is valid, the planner adds no step and the interpolators do nothing. -/
noncomputable def realEnv : Env ℝ Unit Unit (Matrix (Fin 3) (Fin 3) ℝ) where
  uninit := { position := { x := 0, y := 0 }, angle := 0, impactTime := 0 }
  valid := fun _ => true
  rot := realRotation
  setEndTime := fun p _ => (true, p)
  computeNewSteps := fun p l r _ => { ok := true, planner := p, left := l, right := r }
  interpolateW := fun i _ _ _ _ _ => (true, i)
  interpolate := fun i _ _ _ _ => (true, i)
  interpolateP := fun i _ _ _ _ _ _ _ => (true, i)
  interpolateDCM := fun i _ _ _ _ => (true, i)
  interpolateDCMB := fun i _ _ _ _ _ => (true, i)

/-- A generator over the reals with one committed step per foot, both with
yaw 0 and impact time 0. -/
noncomputable def realState : Generator ℝ Unit Unit where
  m_left := [{ position := { x := 0, y := 1 }, angle := 0, impactTime := 0 }]
  m_right := [{ position := { x := 0, y := -1 }, angle := 0, impactTime := 0 }]
  planner := ()
  interp := ()

/-! ## Helper lemmas -/

/-- The arctangent of the point `(cos θ, sin θ)` is `θ` wrapped into `(-π, π]`. -/
theorem atan2_sin_cos (θ : ℝ) :
    atan2 (Real.sin θ) (Real.cos θ) = toIocMod Real.two_pi_pos (-Real.pi) θ := by
  rw [← Complex.arg_cos_add_sin_mul_I_eq_toIocMod]
  unfold atan2
  congr 1
  apply Complex.ext
  · simp [Complex.cos_ofReal_re, Complex.sin_ofReal_im]
  · simp [Complex.cos_ofReal_im, Complex.sin_ofReal_re]

/-- Entries of the matrix `RotZ(p)⁻¹ * RotZ(a)` that the yaw extraction reads. -/
theorem realRotation_delta_entries (p a : ℝ) :
    (realRotation.mul (realRotation.inverse (realRotation.RotZ p)) (realRotation.RotZ a)) 2 0 = 0
    ∧ (realRotation.mul (realRotation.inverse (realRotation.RotZ p)) (realRotation.RotZ a)) 1 0
      = Real.sin (a - p)
    ∧ (realRotation.mul (realRotation.inverse (realRotation.RotZ p)) (realRotation.RotZ a)) 0 0
      = Real.cos (a - p) := by
  have e : ∀ θ : ℝ, realRotation.RotZ θ =
      !![Real.cos θ, -Real.sin θ, 0; Real.sin θ, Real.cos θ, 0; 0, 0, 1] := fun _ => rfl
  have hm : ∀ A B : Matrix (Fin 3) (Fin 3) ℝ, realRotation.mul (realRotation.inverse A) B
      = A.transpose * B := fun _ _ => rfl
  rw [hm, e, e]
  refine ⟨?_, ?_, ?_⟩
  · rw [Matrix.mul_apply, Fin.sum_univ_three]
    simp only [Matrix.transpose_apply]
    simp
  · rw [Matrix.mul_apply, Fin.sum_univ_three]
    simp only [Matrix.transpose_apply]
    simp [Real.sin_sub]
    ring
  · rw [Matrix.mul_apply, Fin.sum_univ_three]
    simp only [Matrix.transpose_apply]
    simp [Real.cos_sub]
    ring

/-- Over the reals the yaw of `RotZ(p)⁻¹ * RotZ(a)` is `a - p` wrapped into
`(-π, π]`. -/
theorem realRotation_yaw_delta (p a : ℝ) :
    realRotation.yaw (realRotation.mul (realRotation.inverse (realRotation.RotZ p))
      (realRotation.RotZ a)) = toIocMod Real.two_pi_pos (-Real.pi) (a - p) := by
  obtain ⟨h20, h10, h00⟩ := realRotation_delta_entries p a
  have hy : ∀ M : Matrix (Fin 3) (Fin 3) ℝ, realRotation.yaw M =
      if M 2 0 < 1 then
        if -1 < M 2 0 then atan2 (M 1 0) (M 0 0) else -atan2 (-M 1 2) (M 1 1)
      else atan2 (-M 1 2) (M 1 1) := fun _ => rfl
  rw [hy, h20, if_pos one_pos, if_pos (by norm_num), h10, h00, atan2_sin_cos]

/-- An angle already in `(-π, π]` is left alone by the wrapping. -/
theorem wrap_eq_self {θ : ℝ} (h1 : -Real.pi < θ) (h2 : θ ≤ Real.pi) :
    toIocMod Real.two_pi_pos (-Real.pi) θ = θ := by
  rw [toIocMod_eq_self]
  exact ⟨h1, by linarith⟩

/-- The wrapped angle lies in `(-π, π]`. -/
theorem wrap_mem (θ : ℝ) :
    -Real.pi < toIocMod Real.two_pi_pos (-Real.pi) θ
      ∧ toIocMod Real.two_pi_pos (-Real.pi) θ ≤ Real.pi := by
  have h := toIocMod_mem_Ioc Real.two_pi_pos (-Real.pi) θ
  exact ⟨h.1, by have := h.2; linarith⟩

/-! ### The methods are their stages run in order -/

section StageLemmas

variable {α P I R : Type}

/-- An early `return false` on a failed call is the first stage of a list. -/
theorem guard_eq_runStages (f k : Call α P I) (fs : List (Call α P I)) (s : Generator α P I)
    (hk : k (f s).2 = runStages fs (f s).2) :
    (match f s with
      | (false, s) => (false, s)
      | (true, s) => k s) = runStages (f :: fs) s := by
  unfold runStages
  rcases h : f s with ⟨b, s1⟩
  rw [h] at hk
  cases b
  · rfl
  · exact hk

/-- The expression `a && b && c` is the three stages in order. -/
theorem andThen3_eq_runStages (a b c : Call α P I) (s : Generator α P I) :
    andThen (andThen a b) c s = runStages [a, b, c] s := by
  unfold andThen
  simp only [runStages]
  rcases ha : a s with ⟨_ | _, s1⟩
  · rfl
  · dsimp only
    rcases hb : b s1 with ⟨_ | _, s2⟩
    · rfl
    · dsimp only
      rcases hc : c s2 with ⟨_ | _, s3⟩ <;> rfl

/-- The expression `a && b` is the two stages in order. -/
theorem andThen2_eq_runStages (a b : Call α P I) (s : Generator α P I) :
    andThen a b s = runStages [a, b] s := by
  unfold andThen
  simp only [runStages]
  rcases ha : a s with ⟨_ | _, s1⟩
  · rfl
  · dsimp only
    rcases hb : b s1 with ⟨_ | _, s2⟩ <;> rfl

theorem runStages_cons (f : Call α P I) (fs : List (Call α P I)) (s : Generator α P I) :
    runStages (f :: fs) s =
      match f s with
      | (true, s) => runStages fs s
      | (false, s) => (false, s) := rfl

theorem runStages_cons_of_true (f : Call α P I) (fs : List (Call α P I))
    (s s1 : Generator α P I) (h : f s = (true, s1)) : runStages (f :: fs) s = runStages fs s1 := by
  rw [runStages_cons, h]

theorem runStages_cons_of_false (f : Call α P I) (fs : List (Call α P I))
    (s s1 : Generator α P I) (h : f s = (false, s1)) : runStages (f :: fs) s = (false, s1) := by
  rw [runStages_cons, h]

theorem allPass_cons (f : Call α P I) (fs : List (Call α P I)) (s : Generator α P I) :
    AllPass (f :: fs) s ↔ (f s).1 = true ∧ AllPass fs (f s).2 := Iff.rfl

theorem stateAfter_cons (f : Call α P I) (fs : List (Call α P I)) (s : Generator α P I) :
    stateAfter (f :: fs) s = stateAfter fs (f s).2 := rfl

/-- A list of stages returns `true` exactly when every stage does. -/
theorem runStages_true_iff (L : List (Call α P I)) (s : Generator α P I) :
    (runStages L s).1 = true ↔ AllPass L s := by
  induction L generalizing s with
  | nil => simp [runStages, AllPass]
  | cons f fs ih =>
    rw [allPass_cons]
    rcases h : f s with ⟨_ | _, s1⟩
    · rw [runStages_cons_of_false _ _ _ _ h]
      simp
    · rw [runStages_cons_of_true _ _ _ _ h]
      simpa using ih s1

/-- When every stage passes, the call returns `true` in the state they built. -/
theorem runStages_of_allPass (L : List (Call α P I)) (s : Generator α P I) (h : AllPass L s) :
    runStages L s = (true, stateAfter L s) := by
  induction L generalizing s with
  | nil => rfl
  | cons f fs ih =>
    rw [allPass_cons] at h
    rw [stateAfter_cons]
    rcases hf : f s with ⟨_ | _, s1⟩
    · rw [hf] at h
      simp at h
    · rw [hf] at h
      rw [runStages_cons_of_true _ _ _ _ hf]
      exact ih s1 h.2

/-- After a passing first part, the rest of the stages runs from its state. -/
theorem runStages_append_of_allPass (L1 L2 : List (Call α P I)) (s : Generator α P I)
    (h : AllPass L1 s) : runStages (L1 ++ L2) s = runStages L2 (stateAfter L1 s) := by
  induction L1 generalizing s with
  | nil => rfl
  | cons f fs ih =>
    rw [allPass_cons] at h
    rw [List.cons_append, stateAfter_cons]
    rcases hf : f s with ⟨_ | _, s1⟩
    · rw [hf] at h
      simp at h
    · rw [hf] at h
      rw [runStages_cons_of_true _ _ _ _ hf]
      exact ih s1 h.2

/-- When a stage of the first part fails, the later stages do not run. -/
theorem runStages_append_of_not_allPass (L1 L2 : List (Call α P I)) (s : Generator α P I)
    (h : ¬ AllPass L1 s) : runStages (L1 ++ L2) s = runStages L1 s := by
  induction L1 generalizing s with
  | nil => exact absurd trivial h
  | cons f fs ih =>
    rw [allPass_cons] at h
    rw [List.cons_append]
    rcases hf : f s with ⟨_ | _, s1⟩
    · rw [runStages_cons_of_false _ _ _ _ hf, runStages_cons_of_false _ _ _ _ hf]
    · rw [hf] at h
      rw [runStages_cons_of_true _ _ _ _ hf, runStages_cons_of_true _ _ _ _ hf]
      exact ih s1 (fun h2 => h ⟨rfl, h2⟩)

/-- The call ends at the first failing stage, in the state that stage left. -/
theorem runStages_stop (pre post : List (Call α P I)) (f : Call α P I) (s : Generator α P I)
    (hpre : AllPass pre s) (hf : (f (stateAfter pre s)).1 = false) :
    runStages (pre ++ f :: post) s = (false, (f (stateAfter pre s)).2) := by
  rw [runStages_append_of_allPass _ _ _ hpre]
  rcases h : f (stateAfter pre s) with ⟨_ | _, s1⟩
  · rw [runStages_cons_of_false _ _ _ _ h]
  · rw [h] at hf
    simp at hf

/-- A property of the generator kept by every stage of a list is kept by the
list. -/
theorem runStages_keeps {β : Type} (proj : Generator α P I → β) (L : List (Call α P I))
    (hL : ∀ f ∈ L, ∀ s, proj (f s).2 = proj s) (s : Generator α P I) :
    proj (runStages L s).2 = proj s := by
  induction L generalizing s with
  | nil => rfl
  | cons f fs ih =>
    have hf := hL f (List.mem_cons_self _ _) s
    rcases h : f s with ⟨_ | _, s1⟩
    · rw [h] at hf
      rw [runStages_cons_of_false _ _ _ _ h]
      exact hf
    · rw [h] at hf
      rw [runStages_cons_of_true _ _ _ _ h, ← hf]
      exact ih (fun g hg => hL g (List.mem_cons_of_mem _ hg)) s1

/-- A property of the generator kept by every stage of a list holds in the
state after the list. -/
theorem stateAfter_keeps {β : Type} (proj : Generator α P I → β) (L : List (Call α P I))
    (hL : ∀ f ∈ L, ∀ s, proj (f s).2 = proj s) (s : Generator α P I) :
    proj (stateAfter L s) = proj s := by
  induction L generalizing s with
  | nil => rfl
  | cons f fs ih =>
    rw [stateAfter_cons]
    rw [ih (fun g hg => hL g (List.mem_cons_of_mem _ hg)), hL f (List.mem_cons_self _ _) s]

/-! ### What the planner stages touch -/

theorem prepare_planner (m : Method α) (s : Generator α P I) :
    (m.prepare s).planner = s.planner := by
  cases m <;> rfl

theorem prepare_interp (m : Method α) (s : Generator α P I) :
    (m.prepare s).interp = s.interp := by
  cases m <;> rfl

/-- The planner after the planner stages and an interpolation. -/
theorem planner_after_horizon (E : Env α P I R) (t e : α) (ip : Call α P I)
    (hip : ∀ s, (ip s).2.planner = s.planner) (s : Generator α P I) :
    (runStages [setEndTime E e, computeNewSteps E t, ip] s).2.planner =
      if (E.setEndTime s.planner e).1 = true then
        (E.computeNewSteps (E.setEndTime s.planner e).2 s.m_left s.m_right t).planner
      else (E.setEndTime s.planner e).2 := by
  rw [runStages_cons]
  unfold setEndTime
  rcases h1 : E.setEndTime s.planner e with ⟨_ | _, p1⟩
  · simp
  · simp only [if_true]
    rw [runStages_cons]
    rcases h2 : computeNewSteps E t { s with planner := p1 } with ⟨_ | _, s2⟩
    · have := congrArg (fun r => r.2.planner) h2
      simpa [computeNewSteps] using this.symm
    · simp only
      rw [runStages_cons]
      have := congrArg (fun r => r.2.planner) h2
      have h3 := hip s2
      rcases h4 : ip s2 with ⟨_ | _, s3⟩ <;> rw [h4] at h3 <;>
        simp only [runStages] <;> rw [h3] <;> simpa [computeNewSteps] using this.symm

/-- The planner after `computeNewSteps` and an interpolation. -/
theorem planner_after_plan (E : Env α P I R) (t : α) (ip : Call α P I)
    (hip : ∀ s, (ip s).2.planner = s.planner) (s : Generator α P I) :
    (runStages [computeNewSteps E t, ip] s).2.planner =
      (E.computeNewSteps s.planner s.m_left s.m_right t).planner := by
  rw [runStages_cons]
  rcases h2 : computeNewSteps E t s with ⟨_ | _, s2⟩
  · have := congrArg (fun r => r.2.planner) h2
    simpa [computeNewSteps] using this.symm
  · simp only
    rw [runStages_cons]
    have := congrArg (fun r => r.2.planner) h2
    have h3 := hip s2
    rcases h4 : ip s2 with ⟨_ | _, s3⟩ <;> rw [h4] at h3 <;>
      simp only [runStages] <;> rw [h3] <;> simpa [computeNewSteps] using this.symm

/-! ### Fresh generation over a horizon -/

/-- The three stages of a fresh generation over a horizon, run a second time
from the state the first run left, give the same result. -/
theorem horizon_tail_repeat (E : Env α P I R) (t e : α) (ip : Call α P I)
    (ipE : I → FootPrint α → FootPrint α → Bool × I)
    (hip : ∀ g, ip g = ((ipE g.interp g.m_left g.m_right).1,
      { g with interp := (ipE g.interp g.m_left g.m_right).2 }))
    (hset : ∀ p e, E.setEndTime (E.setEndTime p e).2 e = E.setEndTime p e)
    (hplan : ∀ p l r t, (E.computeNewSteps p l r t).planner = p)
    (hrep : ∀ i l r, ipE (ipE i l r).2 l r = ipE i l r)
    (s : Generator α P I) :
    andThen (andThen (setEndTime E e) (computeNewSteps E t)) ip
        { (andThen (andThen (setEndTime E e) (computeNewSteps E t)) ip
            { s with m_left := [], m_right := [] }).2 with m_left := [], m_right := [] }
      = andThen (andThen (setEndTime E e) (computeNewSteps E t)) ip
          { s with m_left := [], m_right := [] } := by
  unfold andThen setEndTime computeNewSteps
  simp only [hip]
  rcases h1 : E.setEndTime s.planner e with ⟨_ | _, p1⟩
  · have h1b := hset s.planner e
    rw [h1] at h1b
    simp only at h1b
    simp only [h1b]
  · have h1b := hset s.planner e
    rw [h1] at h1b
    simp only at h1b
    simp only
    have h2p := hplan p1 [] [] t
    rcases h2 : E.computeNewSteps p1 [] [] t with ⟨_ | _, p2, l2, r2⟩
    · rw [h2] at h2p
      simp only at h2p
      subst h2p
      simp only [h1b, h2]
    · rw [h2] at h2p
      simp only at h2p
      subst h2p
      simp only [h1b, h2]
      have h3 := hrep s.interp l2 r2
      rw [h3]

/-! ### Fresh generation with supplied footprints -/

/-- The retained sequences after `computeNewSteps(...) && interpolation`: the
ones the planner left, whatever the two calls returned. -/
theorem feet_after_plan (E : Env α P I R) (t : α) (ip : Call α P I)
    (hip : ∀ g, (ip g).2.m_left = g.m_left ∧ (ip g).2.m_right = g.m_right)
    (s : Generator α P I) :
    (andThen (computeNewSteps E t) ip s).2.m_left
        = (E.computeNewSteps s.planner s.m_left s.m_right t).left
      ∧ (andThen (computeNewSteps E t) ip s).2.m_right
        = (E.computeNewSteps s.planner s.m_left s.m_right t).right := by
  unfold andThen
  have hl : (computeNewSteps E t s).2.m_left
      = (E.computeNewSteps s.planner s.m_left s.m_right t).left := rfl
  have hr : (computeNewSteps E t s).2.m_right
      = (E.computeNewSteps s.planner s.m_left s.m_right t).right := rfl
  rcases h : computeNewSteps E t s with ⟨_ | _, s2⟩
  · rw [h] at hl hr
    exact ⟨hl, hr⟩
  · rw [h] at hl hr
    simp only
    rw [(hip s2).1, (hip s2).2]
    exact ⟨hl, hr⟩

/-- The retained sequences after `setEndTime(...) && computeNewSteps(...) &&
interpolation`: untouched when `setEndTime` fails, otherwise the ones the
planner left. -/
theorem feet_after_horizon (E : Env α P I R) (t e : α) (ip : Call α P I)
    (hip : ∀ g, (ip g).2.m_left = g.m_left ∧ (ip g).2.m_right = g.m_right)
    (s : Generator α P I) :
    (andThen (andThen (setEndTime E e) (computeNewSteps E t)) ip s).2.m_left
        = (if (E.setEndTime s.planner e).1 = true then
            (E.computeNewSteps (E.setEndTime s.planner e).2 s.m_left s.m_right t).left
          else s.m_left)
      ∧ (andThen (andThen (setEndTime E e) (computeNewSteps E t)) ip s).2.m_right
        = (if (E.setEndTime s.planner e).1 = true then
            (E.computeNewSteps (E.setEndTime s.planner e).2 s.m_left s.m_right t).right
          else s.m_right) := by
  unfold andThen setEndTime
  rcases h1 : E.setEndTime s.planner e with ⟨_ | _, p1⟩
  · simp
  · simp only [if_true]
    have h := feet_after_plan E t ip hip { s with planner := p1 }
    unfold andThen at h
    exact h

/-! ### Trimming -/

variable [LinearOrder α]

/-- On an empty sequence `addStep` accepts exactly the valid steps. -/
theorem addStep_nil (valid : Step α → Bool) (st : Step α) :
    FootPrint.addStep valid [] st = (valid st, if valid st = true then [st] else []) := by
  unfold FootPrint.addStep
  cases h : valid st <;> simp

/-- A failed trimming leaves the sequence as it was. -/
theorem keepOnlyPresentStep_of_false (fp : FootPrint α) (t : α)
    (h : (FootPrint.keepOnlyPresentStep fp t).1 = false) :
    FootPrint.keepOnlyPresentStep fp t = (false, fp) := by
  unfold FootPrint.keepOnlyPresentStep at h ⊢
  split
  · rename_i present hp
    rw [hp] at h
    simp at h
  · rfl

/-- A successful trimming leaves exactly one step, the present one. -/
theorem keepOnlyPresentStep_of_true (E : Env α P I R) (fp : FootPrint α) (t : α)
    (h : (FootPrint.keepOnlyPresentStep fp t).1 = true) :
    FootPrint.keepOnlyPresentStep fp t = (true, [previousStep E fp t]) := by
  unfold previousStep
  unfold FootPrint.keepOnlyPresentStep at h ⊢
  split
  · rfl
  · rename_i hp
    rw [hp] at h
    simp at h

theorem keepLeft_of_false (t : α) (s : Generator α P I)
    (h : (FootPrint.keepOnlyPresentStep s.m_left t).1 = false) : keepLeft t s = (false, s) := by
  unfold keepLeft
  rw [keepOnlyPresentStep_of_false _ _ h]

theorem keepRight_of_false (t : α) (s : Generator α P I)
    (h : (FootPrint.keepOnlyPresentStep s.m_right t).1 = false) : keepRight t s = (false, s) := by
  unfold keepRight
  rw [keepOnlyPresentStep_of_false _ _ h]

theorem keepLeft_of_true (t : α) (s : Generator α P I)
    (h : (FootPrint.keepOnlyPresentStep s.m_left t).1 = true) :
    keepLeft t s = (true, { s with m_left := (FootPrint.keepOnlyPresentStep s.m_left t).2 }) := by
  unfold keepLeft
  exact Prod.ext h rfl

theorem keepRight_of_true (t : α) (s : Generator α P I)
    (h : (FootPrint.keepOnlyPresentStep s.m_right t).1 = true) :
    keepRight t s
      = (true, { s with m_right := (FootPrint.keepOnlyPresentStep s.m_right t).2 }) := by
  unfold keepRight
  exact Prod.ext h rfl

/-- The two trimming stages, run from `s`: a failure on the left foot changes
nothing, a failure on the right foot leaves the left sequence trimmed. -/
theorem runStages_trim (t : α) (s : Generator α P I) :
    runStages [keepLeft t, keepRight t] s =
      if (FootPrint.keepOnlyPresentStep s.m_left t).1 = true then
        if (FootPrint.keepOnlyPresentStep s.m_right t).1 = true then
          (true, { s with m_left := (FootPrint.keepOnlyPresentStep s.m_left t).2,
                          m_right := (FootPrint.keepOnlyPresentStep s.m_right t).2 })
        else (false, { s with m_left := (FootPrint.keepOnlyPresentStep s.m_left t).2 })
      else (false, s) := by
  by_cases hl : (FootPrint.keepOnlyPresentStep s.m_left t).1 = true
  · rw [if_pos hl, runStages_cons_of_true _ _ _ _ (keepLeft_of_true t s hl)]
    by_cases hr : (FootPrint.keepOnlyPresentStep s.m_right t).1 = true
    · have h2 := keepRight_of_true t
        { s with m_left := (FootPrint.keepOnlyPresentStep s.m_left t).2 } hr
      rw [if_pos hr, runStages_cons_of_true _ _ _ _ h2]
      rfl
    · have h2 := keepRight_of_false t
        { s with m_left := (FootPrint.keepOnlyPresentStep s.m_left t).2 } (by simpa using hr)
      rw [if_neg hr, runStages_cons_of_false _ _ _ _ h2]
  · rw [if_neg hl, runStages_cons_of_false _ _ _ _ (keepLeft_of_false t s (by simpa using hl))]

theorem allPass_trim (t : α) (s : Generator α P I) :
    AllPass [keepLeft t, keepRight t] s ↔
      (FootPrint.keepOnlyPresentStep s.m_left t).1 = true
        ∧ (FootPrint.keepOnlyPresentStep s.m_right t).1 = true := by
  simp [AllPass, keepLeft, keepRight]

theorem interpolation_planner (E : Env α P I R) (m : Method α) (s0 s : Generator α P I) :
    (m.interpolation E s0 s).2.planner = s.planner := by
  cases m <;> rfl

/-- The present step kept by a successful trimming is still present when the
trimmed sequence is trimmed again at the same time. -/
theorem keepOnlyPresentStep_again (E : Env α P I R) (fp : FootPrint α) (t : α)
    (h : (FootPrint.keepOnlyPresentStep fp t).1 = true) :
    FootPrint.keepOnlyPresentStep [previousStep E fp t] t = (true, [previousStep E fp t]) := by
  have hle : (previousStep E fp t).impactTime ≤ t := by
    unfold previousStep
    unfold FootPrint.keepOnlyPresentStep at h ⊢
    split
    · rename_i present hp
      have hmem := List.mem_of_getLast?_eq_some hp
      have := (List.mem_filter.1 hmem).2
      simpa [FootPrint.getLastStep] using this
    · rename_i hp
      rw [hp] at h
      simp at h
  unfold FootPrint.keepOnlyPresentStep
  simp [hle]

/-- The two trimming calls on the shared object: the first keeps the present
step, the second finds it again. -/
theorem keepShared_twice (E : Env α P I R) (t : α) (s : SharedGenerator α P I)
    (h : (FootPrint.keepOnlyPresentStep s.m_shared t).1 = true) :
    keepShared t s = (true, { s with m_shared := [previousStep E s.m_shared t] })
      ∧ keepShared t { s with m_shared := [previousStep E s.m_shared t] }
        = (true, { s with m_shared := [previousStep E s.m_shared t] }) := by
  constructor
  · unfold keepShared
    rw [keepOnlyPresentStep_of_true E _ _ h]
  · unfold keepShared
    simp only
    rw [keepOnlyPresentStep_again E _ _ h]

/-- With one object behind both pointers, a single-foot correction in DCM
mode leaves that object holding the measured step only, for either value of
`correctLeft`. -/
theorem reGenerateDCMSingleShared_of_accepted (E : SharedEnv α P I R) (t dT e : α)
    (bp bv : Vector2 α) (c : Bool) (m : Vector2 α) (a : α) (s : SharedGenerator α P I)
    (h : (FootPrint.keepOnlyPresentStep s.m_shared t).1 = true)
    (hacc : E.valid (measuredFoot (previousStep E.toEnv s.m_shared t) m a) = true) :
    reGenerateDCMSingleShared E t dT e bp bv c m a s =
      planAndInterpolateShared E t e
        (interpolateDCMBShared E.toEnv t dT { initialPosition := bp, initialVelocity := bv })
        { s with m_shared := [measuredFoot (previousStep E.toEnv s.m_shared t) m a] } := by
  obtain ⟨h1, h2⟩ := keepShared_twice E.toEnv t s h
  unfold measuredFoot at hacc ⊢
  unfold reGenerateDCMSingleShared planAndInterpolateShared
  simp only [h1, h2, FootPrint.getLastStep, List.getLast?_singleton, ite_self, addShared,
    FootPrint.clearSteps, addStep_nil, hacc, if_true]

/-- With one object behind both pointers, the overload taking two measured
steps clears the object and adds both steps to it: a rejected left step
leaves it empty, a rejected right step leaves it holding the left step. -/
theorem reGenerateStepsShared_of_rejected (E : SharedEnv α P I R) (t dT e : α)
    (w : InitialState α) (mL mR : Step α) (s : SharedGenerator α P I)
    (h : (FootPrint.keepOnlyPresentStep s.m_shared t).1 = true) :
    ((FootPrint.addStep E.valid [] mL).1 = false →
        reGenerateStepsShared E t dT e w mL mR s = (false, { s with m_shared := [] }))
    ∧ ((FootPrint.addStep E.valid [] mL).1 = true →
        (FootPrint.addStep E.valid [mL] mR).1 = false →
        reGenerateStepsShared E t dT e w mL mR s = (false, { s with m_shared := [mL] })) := by
  obtain ⟨h1, h2⟩ := keepShared_twice E.toEnv t s h
  constructor
  · intro hrej
    rw [addStep_nil] at hrej
    simp only at hrej
    unfold reGenerateStepsShared
    simp only [h1, h2, addShared, FootPrint.clearSteps, addStep_nil, hrej]
    simp
  · intro hacc hrej
    rw [addStep_nil] at hacc
    simp only at hacc
    have hrej2 : FootPrint.addStep E.valid [mL] mR = (false, [mL]) := by
      unfold FootPrint.addStep at hrej ⊢
      by_cases hv : E.valid mR = true
      · simp only [hv, if_true, List.getLast?_singleton] at hrej ⊢
        by_cases hlt : mL.impactTime < mR.impactTime
        · simp [hlt] at hrej
        · simp [hlt]
      · simp [hv]
    unfold reGenerateStepsShared
    simp only [h1, h2, addShared, FootPrint.clearSteps, addStep_nil, hacc, if_true, hrej2]

variable [Add α]

/-- Every public method is its list of stages, run in order after the
preparation of the retained sequences. -/
theorem run_eq_runStages (E : Env α P I R) (m : Method α) (s : Generator α P I) :
    m.run E s = runStages (m.stages E s) (m.prepare s) := by
  cases m with
  | generateAndInterpolateFeetW l r t dT w => exact andThen2_eq_runStages _ _ _
  | generateAndInterpolateFeet l r t dT => exact andThen2_eq_runStages _ _ _
  | generateAndInterpolateHorizon t dT e => exact andThen3_eq_runStages _ _ _ _
  | generateAndInterpolateFeetHorizon l r t dT e => exact andThen3_eq_runStages _ _ _ _
  | generateAndInterpolateDCMHorizon t dT e => exact andThen3_eq_runStages _ _ _ _
  | generateAndInterpolateDCMFeetHorizon l r t dT e => exact andThen3_eq_runStages _ _ _ _
  | reGenerate t dT e w =>
    refine guard_eq_runStages _ _ _ _ ?_
    refine guard_eq_runStages _ _ _ _ ?_
    exact andThen3_eq_runStages _ _ _ _
  | reGenerateDCM t dT e b =>
    refine guard_eq_runStages _ _ _ _ ?_
    refine guard_eq_runStages _ _ _ _ ?_
    exact andThen3_eq_runStages _ _ _ _
  | reGenerateSteps t dT e w mL mR =>
    refine guard_eq_runStages _ _ _ _ ?_
    refine guard_eq_runStages _ _ _ _ ?_
    refine guard_eq_runStages (insertLeft E mL) _ _ _ ?_
    refine guard_eq_runStages _ _ _ _ ?_
    exact andThen3_eq_runStages _ _ _ _
  | reGenerateBoth t dT e w mL aL mR aR =>
    refine guard_eq_runStages _ _ _ _ ?_
    refine guard_eq_runStages _ _ _ _ ?_
    refine guard_eq_runStages (correctLeftFoot E _ mL aL) _ _ _ ?_
    refine guard_eq_runStages (correctRightFoot E _ mR aR) _ _ _ ?_
    exact andThen3_eq_runStages _ _ _ _
  | reGenerateDCMBoth t dT e bp bv mL aL mR aR =>
    refine guard_eq_runStages _ _ _ _ ?_
    refine guard_eq_runStages _ _ _ _ ?_
    refine guard_eq_runStages (insertLeft E _) _ _ _ ?_
    refine guard_eq_runStages (addRight E _) _ _ _ ?_
    exact andThen3_eq_runStages _ _ _ _
  | reGenerateSingle t dT e w c m a =>
    refine guard_eq_runStages _ _ _ _ ?_
    refine guard_eq_runStages _ _ _ _ ?_
    cases c
    · refine guard_eq_runStages (correctRightFoot E _ m a) _ _ _ ?_
      exact andThen3_eq_runStages _ _ _ _
    · refine guard_eq_runStages (correctLeftFoot E _ m a) _ _ _ ?_
      exact andThen3_eq_runStages _ _ _ _
  | reGenerateDCMSingle t dT e bp bv c m a =>
    refine guard_eq_runStages _ _ _ _ ?_
    refine guard_eq_runStages _ _ _ _ ?_
    cases c
    · refine guard_eq_runStages (replaceRight E _) _ _ _ ?_
      exact andThen3_eq_runStages _ _ _ _
    · refine guard_eq_runStages (replaceLeft E _) _ _ _ ?_
      exact andThen3_eq_runStages _ _ _ _

/-- A replanning call starts with the two trimming stages and prepares
nothing. -/
theorem replanning_stages (E : Env α P I R) (m : Method α) (s : Generator α P I)
    (hm : m.isReplanning = true) :
    ∃ rest, m.stages E s = [keepLeft m.initTime, keepRight m.initTime] ++ rest
      ∧ m.prepare s = s := by
  cases m <;> first | exact ⟨_, rfl, rfl⟩ | exact absurd hm (by simp [Method.isReplanning])

/-- A replanning call whose trimming fails is the two trimming stages only. -/
theorem run_of_trim_fail (E : Env α P I R) (m : Method α) (s : Generator α P I)
    (hm : m.isReplanning = true)
    (h : (FootPrint.keepOnlyPresentStep s.m_left m.initTime).1 = false
      ∨ (FootPrint.keepOnlyPresentStep s.m_right m.initTime).1 = false) :
    m.run E s = runStages [keepLeft m.initTime, keepRight m.initTime] s := by
  obtain ⟨rest, hst, hp⟩ := replanning_stages E m s hm
  rw [run_eq_runStages, hst, hp]
  apply runStages_append_of_not_allPass
  rw [allPass_trim]
  rintro ⟨h1, h2⟩
  rcases h with h | h
  · rw [h] at h1
    exact absurd h1 (by decide)
  · rw [h] at h2
    exact absurd h2 (by decide)

/-- A replanning call whose two trimmings succeed is the rest of its stages,
run from the generator that holds the present step of each foot. -/
theorem run_of_trim_ok (E : Env α P I R) (m : Method α) (s : Generator α P I)
    (hm : m.isReplanning = true)
    (hl : (FootPrint.keepOnlyPresentStep s.m_left m.initTime).1 = true)
    (hr : (FootPrint.keepOnlyPresentStep s.m_right m.initTime).1 = true) :
    m.run E s = runStages ((m.stages E s).drop 2)
      { s with m_left := [previousStep E s.m_left m.initTime],
               m_right := [previousStep E s.m_right m.initTime] } := by
  obtain ⟨rest, hst, hp⟩ := replanning_stages E m s hm
  have hall : AllPass [keepLeft m.initTime, keepRight m.initTime] s := by
    rw [allPass_trim]
    exact ⟨hl, hr⟩
  have hrun := runStages_of_allPass _ _ hall
  rw [runStages_trim, if_pos hl, if_pos hr] at hrun
  have hstate := (Prod.ext_iff.1 hrun).2
  simp only at hstate
  rw [run_eq_runStages, hst, hp, runStages_append_of_allPass _ _ _ hall, ← hstate]
  have e1 := keepOnlyPresentStep_of_true E s.m_left m.initTime hl
  have e2 := keepOnlyPresentStep_of_true E s.m_right m.initTime hr
  rw [e1, e2]
  rfl

/-! ### Measured-step insertion -/

theorem clearAndAddMeasuredStep_eq (rot : RotationLib α R) (valid : Step α → Bool)
    (foot : FootPrint α) (p : Step α) (m : Vector2 α) (a : α) :
    clearAndAddMeasuredStep rot valid foot p m a
      = (valid (correctedStep rot p m a),
          if valid (correctedStep rot p m a) = true then [correctedStep rot p m a] else []) :=
  addStep_nil valid (correctedStep rot p m a)

/-- The weight-mode overload with a `correctLeft` flag, after a successful
trimming and an accepted corrected step: the rest of the call runs on the
corrected foot holding the corrected step only, the other foot as trimmed. -/
theorem reGenerateSingle_of_accepted (E : Env α P I R) (t dT e : α) (w : InitialState α)
    (c : Bool) (m : Vector2 α) (a : α) (s : Generator α P I)
    (hl : (FootPrint.keepOnlyPresentStep s.m_left t).1 = true)
    (hr : (FootPrint.keepOnlyPresentStep s.m_right t).1 = true)
    (hacc : E.valid (correctedStep E.rot
      (if c = true then previousStep E s.m_left t else previousStep E s.m_right t) m a) = true) :
    Unicycle.reGenerateSingle E t dT e w c m a s =
      planAndInterpolate E t e
        (interpolateP E t dT w (previousStep E s.m_left t) (previousStep E s.m_right t))
        (if c = true then
          { s with m_left := [correctedStep E.rot (previousStep E s.m_left t) m a],
                   m_right := [previousStep E s.m_right t] }
        else
          { s with m_left := [previousStep E s.m_left t],
                   m_right := [correctedStep E.rot (previousStep E s.m_right t) m a] }) := by
  have hrun := run_of_trim_ok E (Method.reGenerateSingle t dT e w c m a) s rfl hl hr
  change Unicycle.reGenerateSingle E t dT e w c m a s = _ at hrun
  rw [hrun]
  unfold planAndInterpolate
  rw [andThen3_eq_runStages]
  cases c
  · simp only [Bool.false_eq_true, if_false] at hacc ⊢
    exact runStages_cons_of_true _ _ _ _
      (by simp [correctRightFoot, clearAndAddMeasuredStep_eq, hacc, Method.initTime])
  · simp only [if_true] at hacc ⊢
    exact runStages_cons_of_true _ _ _ _
      (by simp [correctLeftFoot, clearAndAddMeasuredStep_eq, hacc, Method.initTime])

/-- The DCM overload with a `correctLeft` flag, after a successful trimming
and an accepted measured step: the rest of the call runs on the corrected foot
holding the measured step only, the other foot as trimmed. -/
theorem reGenerateDCMSingle_of_accepted (E : Env α P I R) (t dT e : α) (bp bv : Vector2 α)
    (c : Bool) (m : Vector2 α) (a : α) (s : Generator α P I)
    (hl : (FootPrint.keepOnlyPresentStep s.m_left t).1 = true)
    (hr : (FootPrint.keepOnlyPresentStep s.m_right t).1 = true)
    (hacc : E.valid (measuredFoot
      (if c = true then previousStep E s.m_left t else previousStep E s.m_right t) m a) = true) :
    Unicycle.reGenerateDCMSingle E t dT e bp bv c m a s =
      planAndInterpolate E t e
        (interpolateDCMB E t dT { initialPosition := bp, initialVelocity := bv })
        (if c = true then
          { s with m_left := [measuredFoot (previousStep E s.m_left t) m a],
                   m_right := [previousStep E s.m_right t] }
        else
          { s with m_left := [previousStep E s.m_left t],
                   m_right := [measuredFoot (previousStep E s.m_right t) m a] }) := by
  have hrun := run_of_trim_ok E (Method.reGenerateDCMSingle t dT e bp bv c m a) s rfl hl hr
  change Unicycle.reGenerateDCMSingle E t dT e bp bv c m a s = _ at hrun
  rw [hrun]
  unfold planAndInterpolate
  rw [andThen3_eq_runStages]
  cases c
  · simp only [Bool.false_eq_true, if_false] at hacc ⊢
    exact runStages_cons_of_true _ _ _ _
      (by
        unfold measuredFoot at hacc
        simp [replaceRight, addRight, FootPrint.clearSteps, addStep_nil, hacc,
          Method.initTime, measuredFoot])
  · simp only [if_true] at hacc ⊢
    exact runStages_cons_of_true _ _ _ _
      (by
        unfold measuredFoot at hacc
        simp [replaceLeft, addLeft, FootPrint.clearSteps, addStep_nil, hacc,
          Method.initTime, measuredFoot])

/-! ### Evaluation over the reals -/

/-- The angle 4 wrapped into `(-π, π]` is `4 - 2π`. -/
theorem wrap_four : toIocMod Real.two_pi_pos (-Real.pi) (4 : ℝ) = 4 - 2 * Real.pi := by
  rw [toIocMod_eq_iff]
  have h3 := Real.pi_gt_three
  have h4 := Real.pi_lt_four
  refine ⟨⟨by linarith, by linarith⟩, 1, by simp⟩

theorem realState_previous_left :
    FootPrint.keepOnlyPresentStep realState.m_left 1
      = (true, [{ position := { x := 0, y := 1 }, angle := 0, impactTime := 0 }]) := by
  simp [FootPrint.keepOnlyPresentStep, realState]

theorem realState_previous_right :
    FootPrint.keepOnlyPresentStep realState.m_right 1
      = (true, [{ position := { x := 0, y := -1 }, angle := 0, impactTime := 0 }]) := by
  simp [FootPrint.keepOnlyPresentStep, realState]

theorem realEnv_correctedStep :
    correctedStep realRotation { position := { x := 0, y := 1 }, angle := 0, impactTime := 0 }
        { x := 0.05, y := 1 } 4
      = { position := { x := 0.05, y := 1 }, angle := 4 - 2 * Real.pi, impactTime := 0 } := by
  unfold correctedStep
  simp only [realRotation_yaw_delta, sub_zero, wrap_four, zero_add]

theorem realEnv_interpolateDCMB (t dT : ℝ) (b : DCMInitialState ℝ) (s : Generator ℝ Unit Unit) :
    interpolateDCMB realEnv t dT b s = (true, s) := rfl

theorem realEnv_interpolateP (t dT : ℝ) (w : InitialState ℝ) (pL pR : Step ℝ)
    (s : Generator ℝ Unit Unit) : interpolateP realEnv t dT w pL pR s = (true, s) := rfl

theorem realEnv_planAndInterpolate (t e : ℝ) (interp : Call ℝ Unit Unit)
    (s : Generator ℝ Unit Unit) (h : interp s = (true, s)) :
    planAndInterpolate realEnv t e interp s = (true, s) := by
  simp [planAndInterpolate, andThen, setEndTime, computeNewSteps, realEnv, h]

/-! ### What the stages touch -/

/-- The trimming and insertion stages touch neither the planner nor the
interpolator. -/
theorem prelude_keeps (E : Env α P I R) (m : Method α) (s0 : Generator α P I) :
    ∀ f ∈ m.prelude E s0, ∀ s, (f s).2.planner = s.planner ∧ (f s).2.interp = s.interp := by
  intro f hf s
  cases m <;> simp only [Method.prelude, List.mem_cons, List.mem_singleton, List.not_mem_nil,
    or_false] at hf
  case reGenerate => rcases hf with rfl | rfl <;> exact ⟨rfl, rfl⟩
  case reGenerateDCM => rcases hf with rfl | rfl <;> exact ⟨rfl, rfl⟩
  case reGenerateSteps => rcases hf with rfl | rfl | rfl | rfl <;> exact ⟨rfl, rfl⟩
  case reGenerateBoth => rcases hf with rfl | rfl | rfl | rfl <;> exact ⟨rfl, rfl⟩
  case reGenerateDCMBoth => rcases hf with rfl | rfl | rfl | rfl <;> exact ⟨rfl, rfl⟩
  case reGenerateSingle t dT e w c m a =>
    rcases hf with rfl | rfl | rfl
    · exact ⟨rfl, rfl⟩
    · exact ⟨rfl, rfl⟩
    · cases c <;> exact ⟨rfl, rfl⟩
  case reGenerateDCMSingle t dT e bp bv c m a =>
    rcases hf with rfl | rfl | rfl
    · exact ⟨rfl, rfl⟩
    · exact ⟨rfl, rfl⟩
    · cases c <;> exact ⟨rfl, rfl⟩

/-- No stage before the interpolation touches the interpolator. -/
theorem preStages_keep_interp (E : Env α P I R) (m : Method α) (s0 : Generator α P I) :
    ∀ f ∈ m.preStages E s0, ∀ s, (f s).2.interp = s.interp := by
  intro f hf s
  unfold Method.preStages at hf
  rw [List.mem_append, List.mem_append] at hf
  rcases hf with (hf | hf) | hf
  · exact (prelude_keeps E m s0 f hf s).2
  · unfold Method.horizon at hf
    cases h : m.endTime? with
    | none =>
      rw [h] at hf
      exact absurd hf (List.not_mem_nil _)
    | some e =>
      rw [h] at hf
      rw [List.mem_singleton.1 hf]
      rfl
  · rw [List.mem_singleton.1 hf]
    rfl

/-! ### One object behind both pointers -/

/-- With one object behind both pointers, a single-foot correction in weight
mode leaves that object holding the corrected step only, for either value of
`correctLeft`. -/
theorem reGenerateSingleShared_of_accepted (E : SharedEnv α P I R) (t dT e : α)
    (w : InitialState α) (c : Bool) (m : Vector2 α) (a : α) (s : SharedGenerator α P I)
    (h : (FootPrint.keepOnlyPresentStep s.m_shared t).1 = true)
    (hacc : E.valid (correctedStep E.rot (previousStep E.toEnv s.m_shared t) m a) = true) :
    reGenerateSingleShared E t dT e w c m a s =
      planAndInterpolateShared E t e
        (interpolatePShared E.toEnv t dT w (previousStep E.toEnv s.m_shared t)
          (previousStep E.toEnv s.m_shared t))
        { s with m_shared := [correctedStep E.rot (previousStep E.toEnv s.m_shared t) m a] } := by
  obtain ⟨h1, h2⟩ := keepShared_twice E.toEnv t s h
  unfold reGenerateSingleShared planAndInterpolateShared
  simp only [h1, h2, FootPrint.getLastStep, List.getLast?_singleton, ite_self, correctShared,
    clearAndAddMeasuredStep_eq, hacc, if_true]

end StageLemmas

/-! ## The claims -/

/-- C1: `clearAndAddMeasuredStep` hands to `addStep`, on the cleared foot, the
step whose position is the measured position `m`, whose impact time is the one
of the previous step `p`, and whose angle is
`p.angle + yaw(RotZ(p.angle)⁻¹ * RotZ(a))`; this holds for every geometry
library.  Over the reals, a measured position offset by `(0.05, 0)` and a
measured angle `t + 0.1` for a previous angle `t` give the corrected angle
`t + 0.1`. -/
theorem clearAndAddMeasuredStep_corrected_step :
    (∀ (α R : Type) [LinearOrder α] [Add α] (rot : RotationLib α R) (valid : Step α → Bool)
        (foot : FootPrint α) (p : Step α) (m : Vector2 α) (a : α),
        clearAndAddMeasuredStep rot valid foot p m a =
          FootPrint.addStep valid []
            { position := m
              angle := p.angle + rot.yaw (rot.mul (rot.inverse (rot.RotZ p.angle)) (rot.RotZ a))
              impactTime := p.impactTime })
    ∧ (∀ (valid : Step ℝ → Bool) (foot : FootPrint ℝ) (p : Step ℝ),
        clearAndAddMeasuredStep realRotation valid foot p
            { x := p.position.x + 0.05, y := p.position.y } (p.angle + 0.1) =
          FootPrint.addStep valid []
            { position := { x := p.position.x + 0.05, y := p.position.y }
              angle := p.angle + 0.1
              impactTime := p.impactTime }) := by
  refine ⟨fun α R _ _ rot valid foot p m a => rfl, fun valid foot p => ?_⟩
  have hw : toIocMod Real.two_pi_pos (-Real.pi) (p.angle + 0.1 - p.angle) = 0.1 := by
    have e : p.angle + 0.1 - p.angle = (0.1 : ℝ) := by ring
    rw [e]
    have := Real.pi_gt_three
    exact wrap_eq_self (by linarith) (by linarith)
  show FootPrint.addStep valid [] _ = _
  simp only [realRotation_yaw_delta, hw]

/-- C2: every replanning overload (`reGenerate` and `reGenerateDCM`) returns
`false` whenever `keepOnlyPresentStep(initTime)` fails on the retained left or
on the retained right sequence; the call is then the two trimming calls and
nothing else, whatever the collaborators are, so `setEndTime`,
`computeNewSteps` and the interpolation are not invoked and the planner and the
interpolator are as they were. -/
theorem trimming_failure_returns_false {α P I R : Type} [LinearOrder α] [Add α]
    (E : Env α P I R) (m : Method α) (s : Generator α P I)
    (hm : m.isReplanning = true)
    (h : (FootPrint.keepOnlyPresentStep s.m_left m.initTime).1 = false
      ∨ (FootPrint.keepOnlyPresentStep s.m_right m.initTime).1 = false) :
    (m.run E s).1 = false
      ∧ m.run E s = runStages [keepLeft m.initTime, keepRight m.initTime] s
      ∧ (m.run E s).2.planner = s.planner
      ∧ (m.run E s).2.interp = s.interp := by
  have hrun := run_of_trim_fail E m s hm h
  rw [hrun, runStages_trim]
  by_cases h1 : (FootPrint.keepOnlyPresentStep s.m_left m.initTime).1 = true
  · by_cases h2 : (FootPrint.keepOnlyPresentStep s.m_right m.initTime).1 = true
    · rcases h with h | h
      · rw [h] at h1
        exact absurd h1 (by decide)
      · rw [h] at h2
        exact absurd h2 (by decide)
    · rw [if_pos h1, if_neg h2]
      exact ⟨rfl, rfl, rfl, rfl⟩
  · rw [if_neg h1]
    exact ⟨rfl, rfl, rfl, rfl⟩

/-- Witness of C2: with the start time 5 the right foot has no present step
(its first impact is at time 10), and the call fails without touching the
planner or the output buffer. -/
theorem trimming_failure_returns_false_witness :
    (FootPrint.keepOnlyPresentStep demoState.m_right 5).1 = false
      ∧ ((Method.reGenerate 5 1 50 demoWeight).run demoEnv demoState).1 = false
      ∧ ((Method.reGenerate 5 1 50 demoWeight).run demoEnv demoState).2.planner = 100
      ∧ ((Method.reGenerate 5 1 50 demoWeight).run demoEnv demoState).2.interp = [] :=
  have h := trimming_failure_returns_false demoEnv (Method.reGenerate 5 1 50 demoWeight)
    demoState rfl (Or.inr (by decide))
  ⟨by decide, h.1, h.2.2.1, h.2.2.2⟩

/-- Counterexample to C3: with the start time 5 the left sequence is trimmed
(its present step is the one at time 0, the step at time 20 is dropped), the
right sequence has no present step, and the failed call leaves the left
sequence trimmed, not as it was before the call. -/
theorem failed_replanning_not_atomic :
    (FootPrint.keepOnlyPresentStep demoState.m_right 5).1 = false
      ∧ (Unicycle.reGenerate demoEnv 5 1 50 demoWeight demoState).1 = false
      ∧ (Unicycle.reGenerate demoEnv 5 1 50 demoWeight demoState).2.m_left
          = [{ position := { x := 0, y := 1 }, angle := 0, impactTime := 0 }]
      ∧ (Unicycle.reGenerate demoEnv 5 1 50 demoWeight demoState).2.m_left
          ≠ demoState.m_left := by
  decide

/-- C3, amended: a replanning call that fails in trimming leaves the generator
exactly as it was when `keepOnlyPresentStep` fails on the left sequence; when
the left trimming succeeds and the right one fails, the right sequence, the
planner and the interpolator are as they were and the left sequence holds its
present step only (the trimming is not undone). -/
theorem failed_trimming_frame {α P I R : Type} [LinearOrder α] [Add α]
    (E : Env α P I R) (m : Method α) (s : Generator α P I) (hm : m.isReplanning = true) :
    ((FootPrint.keepOnlyPresentStep s.m_left m.initTime).1 = false → m.run E s = (false, s))
    ∧ ((FootPrint.keepOnlyPresentStep s.m_left m.initTime).1 = true →
        (FootPrint.keepOnlyPresentStep s.m_right m.initTime).1 = false →
        m.run E s = (false, { s with m_left := [previousStep E s.m_left m.initTime] })) := by
  constructor
  · intro hl
    rw [run_of_trim_fail E m s hm (Or.inl hl), runStages_trim, if_neg (by simp [hl])]
  · intro hl hr
    rw [run_of_trim_fail E m s hm (Or.inr hr), runStages_trim, if_pos hl, if_neg (by simp [hr]),
      keepOnlyPresentStep_of_true E _ _ hl]

/-- Witness of the amended C3: the start time 5 trims the left sequence to
the step at time 0 and fails on the right one. -/
theorem failed_trimming_frame_witness :
    (FootPrint.keepOnlyPresentStep demoState.m_left 5).1 = true
      ∧ (FootPrint.keepOnlyPresentStep demoState.m_right 5).1 = false
      ∧ (Method.reGenerateDCM 5 1 50 ⟨⟨0, 0⟩, ⟨0, 0⟩⟩).run demoEnv demoState
          = (false, { demoState with
              m_left := [previousStep demoEnv demoState.m_left 5] }) :=
  ⟨by decide, by decide,
    (failed_trimming_frame demoEnv (Method.reGenerateDCM 5 1 50 ⟨⟨0, 0⟩, ⟨0, 0⟩⟩) demoState
      rfl).2 (by decide) (by decide)⟩

/-- Counterexample to C4: both trimmings succeed at the start time 15, the
measured left step has a negative impact time and `addStep` rejects it; the
call returns `false` with both retained sequences empty, not with the present
steps that the trimming had left. -/
theorem invalid_measured_step_empties :
    (FootPrint.keepOnlyPresentStep demoState.m_left 15
        = (true, [{ position := { x := 0, y := 1 }, angle := 0, impactTime := 0 }]))
      ∧ (FootPrint.keepOnlyPresentStep demoState.m_right 15
        = (true, [{ position := { x := 1, y := -1 }, angle := 0, impactTime := 10 }]))
      ∧ (FootPrint.addStep demoEnv.valid []
          { position := { x := 0, y := 1 }, angle := 0, impactTime := -1 }).1 = false
      ∧ Unicycle.reGenerateSteps demoEnv 15 1 50 demoWeight
          { position := { x := 0, y := 1 }, angle := 0, impactTime := -1 }
          { position := { x := 1, y := -1 }, angle := 0, impactTime := 10 } demoState
        = (false, { demoState with m_left := [], m_right := [] }) := by
  decide

/-- C4, amended: in the `reGenerate` overload that takes two measured steps,
once the trimming has succeeded the retained sequences are cleared before the
measured steps are added, and a rejected step makes the call return `false`
without restoring them; the planner and the interpolator are untouched.  When
`m_left` and `m_right` are two objects: if `addStep` rejects the measured left
step both sequences are empty, and if it accepts the left step and rejects the
right one the left sequence holds the measured left step only and the right
sequence is empty.  When both pointers refer to one object, both steps are
added to it: if `addStep` rejects the measured left step the object is empty,
and if it accepts the left step and then rejects the right one the object,
seen through either pointer, holds the measured left step only. -/
theorem invalid_measured_step_frame {α P I R : Type} [LinearOrder α] [Add α]
    (E : SharedEnv α P I R) (initTime dT endTime : α) (w : InitialState α)
    (measuredLeft measuredRight : Step α) :
    (∀ s : Generator α P I,
      (FootPrint.keepOnlyPresentStep s.m_left initTime).1 = true →
      (FootPrint.keepOnlyPresentStep s.m_right initTime).1 = true →
      ((FootPrint.addStep E.valid [] measuredLeft).1 = false →
          Unicycle.reGenerateSteps E.toEnv initTime dT endTime w measuredLeft measuredRight s
            = (false, { s with m_left := [], m_right := [] }))
      ∧ ((FootPrint.addStep E.valid [] measuredLeft).1 = true →
          (FootPrint.addStep E.valid [] measuredRight).1 = false →
          Unicycle.reGenerateSteps E.toEnv initTime dT endTime w measuredLeft measuredRight s
            = (false, { s with m_left := [measuredLeft], m_right := [] })))
    ∧ (∀ s : SharedGenerator α P I,
      (FootPrint.keepOnlyPresentStep s.m_shared initTime).1 = true →
      ((FootPrint.addStep E.valid [] measuredLeft).1 = false →
          reGenerateStepsShared E initTime dT endTime w measuredLeft measuredRight s
            = (false, { s with m_shared := [] }))
      ∧ ((FootPrint.addStep E.valid [] measuredLeft).1 = true →
          (FootPrint.addStep E.valid [measuredLeft] measuredRight).1 = false →
          reGenerateStepsShared E initTime dT endTime w measuredLeft measuredRight s
            = (false, { s with m_shared := [measuredLeft] }))) := by
  refine ⟨fun s hl hr => ?_, fun s h =>
    reGenerateStepsShared_of_rejected E initTime dT endTime w measuredLeft measuredRight s h⟩
  have hrun := run_of_trim_ok E.toEnv
    (Method.reGenerateSteps initTime dT endTime w measuredLeft measuredRight) s rfl hl hr
  have hst : (Method.stages E.toEnv
      (Method.reGenerateSteps initTime dT endTime w measuredLeft measuredRight) s).drop 2
      = insertLeft E.toEnv measuredLeft :: addRight E.toEnv measuredRight
        :: [setEndTime E.toEnv endTime, computeNewSteps E.toEnv initTime,
            Method.interpolation E.toEnv
              (Method.reGenerateSteps initTime dT endTime w measuredLeft measuredRight) s] :=
    rfl
  rw [hst] at hrun
  change Unicycle.reGenerateSteps E.toEnv initTime dT endTime w measuredLeft measuredRight s = _
    at hrun
  rw [hrun]
  constructor
  · intro hrej
    apply runStages_cons_of_false
    rw [addStep_nil] at hrej
    simp only at hrej
    simp [insertLeft, addLeft, FootPrint.clearSteps, addStep_nil, hrej]
  · intro hacc hrej
    rw [addStep_nil] at hacc hrej
    simp only at hacc hrej
    rw [runStages_cons_of_true (insertLeft E.toEnv measuredLeft) _ _
      { s with m_left := [measuredLeft], m_right := [] }
      (by simp [insertLeft, addLeft, FootPrint.clearSteps, addStep_nil, hacc])]
    apply runStages_cons_of_false
    simp [addRight, addStep_nil, hrej]

/-- Witness of the amended C4.  With two objects, at the start time 15 both
trimmings succeed, the measured left step is accepted and the measured right
step, with a negative impact time, is rejected.  With one object behind both
pointers, the measured left step (impact time 1) is accepted and the measured
right step (impact time 1, not later than the step just added to the same
object) is rejected: the object holds the measured left step. -/
theorem invalid_measured_step_frame_witness :
    ((FootPrint.keepOnlyPresentStep demoState.m_left 15).1 = true
      ∧ (FootPrint.keepOnlyPresentStep demoState.m_right 15).1 = true
      ∧ (FootPrint.addStep demoEnv.valid []
          { position := { x := 0, y := 2 }, angle := 0, impactTime := 1 }).1 = true
      ∧ (FootPrint.addStep demoEnv.valid []
          { position := { x := 1, y := -2 }, angle := 0, impactTime := -1 }).1 = false
      ∧ Unicycle.reGenerateSteps demoEnv 15 1 50 demoWeight
          { position := { x := 0, y := 2 }, angle := 0, impactTime := 1 }
          { position := { x := 1, y := -2 }, angle := 0, impactTime := -1 } demoState
        = (false, { demoState with
            m_left := [{ position := { x := 0, y := 2 }, angle := 0, impactTime := 1 }],
            m_right := [] }))
    ∧ ((FootPrint.keepOnlyPresentStep demoSharedState.m_shared 15).1 = true
      ∧ (FootPrint.addStep demoEnv.valid []
          { position := { x := 0, y := 2 }, angle := 0, impactTime := 1 }).1 = true
      ∧ (FootPrint.addStep demoEnv.valid
          [{ position := { x := 0, y := 2 }, angle := 0, impactTime := 1 }]
          { position := { x := 1, y := -2 }, angle := 0, impactTime := 1 }).1 = false
      ∧ reGenerateStepsShared demoSharedEnv 15 1 50 demoWeight
          { position := { x := 0, y := 2 }, angle := 0, impactTime := 1 }
          { position := { x := 1, y := -2 }, angle := 0, impactTime := 1 } demoSharedState
        = (false, { demoSharedState with
            m_shared := [{ position := { x := 0, y := 2 }, angle := 0, impactTime := 1 }] })) :=
  ⟨⟨by decide, by decide, by decide, by decide,
    ((invalid_measured_step_frame demoSharedEnv 15 1 50 demoWeight
      { position := { x := 0, y := 2 }, angle := 0, impactTime := 1 }
      { position := { x := 1, y := -2 }, angle := 0, impactTime := -1 }).1 demoState
      (by decide) (by decide)).2 (by decide) (by decide)⟩,
   ⟨by decide, by decide, by decide,
    ((invalid_measured_step_frame demoSharedEnv 15 1 50 demoWeight
      { position := { x := 0, y := 2 }, angle := 0, impactTime := 1 }
      { position := { x := 1, y := -2 }, angle := 0, impactTime := 1 }).2 demoSharedState
      (by decide)).2 (by decide) (by decide)⟩⟩

/-- C5, the code at a failing input.  Previous left step with yaw 0, measured
left position `(0.05, 1)` and measured yaw 4 rad: the DCM overload with the
`correctLeft` flag replaces the left sequence by the step with the raw
measured angle 4, and so does the DCM overload with one measurement per foot,
while the rule of the claim, which the weight-mode overload with the same
arguments applies, gives `0 + yaw(RotZ(0)⁻¹ * RotZ(4)) = 4 - 2π`. -/
theorem dcm_correction_overwrites_angle :
    Unicycle.reGenerateDCMSingle realEnv 1 0.01 10 { x := 0, y := 0 } { x := 0, y := 0 } true
        { x := 0.05, y := 1 } 4 realState
      = (true, { realState with
          m_left := [{ position := { x := 0.05, y := 1 }, angle := 4, impactTime := 0 }] })
    ∧ Unicycle.reGenerateSingle realEnv 1 0.01 10
        { initialPosition := 1, initialVelocity := 0, initialAcceleration := 0 } true
        { x := 0.05, y := 1 } 4 realState
      = (true, { realState with
          m_left := [{ position := { x := 0.05, y := 1 }, angle := 4 - 2 * Real.pi,
                       impactTime := 0 }] })
    ∧ Unicycle.reGenerateDCMBoth realEnv 1 0.01 10 { x := 0, y := 0 } { x := 0, y := 0 }
        { x := 0.05, y := 1 } 4 { x := 0, y := -1 } 0 realState
      = (true, { realState with
          m_left := [{ position := { x := 0.05, y := 1 }, angle := 4, impactTime := 0 }],
          m_right := [{ position := { x := 0, y := -1 }, angle := 0, impactTime := 0 }] })
    ∧ (0 : ℝ) + realRotation.yaw (realRotation.mul (realRotation.inverse (realRotation.RotZ 0))
        (realRotation.RotZ 4)) = 4 - 2 * Real.pi
    ∧ (4 : ℝ) ≠ 4 - 2 * Real.pi := by
  have hl : (FootPrint.keepOnlyPresentStep realState.m_left 1).1 = true := by
    rw [realState_previous_left]
  have hr : (FootPrint.keepOnlyPresentStep realState.m_right 1).1 = true := by
    rw [realState_previous_right]
  have pl : previousStep realEnv realState.m_left 1
      = { position := { x := 0, y := 1 }, angle := 0, impactTime := 0 } := by
    unfold previousStep
    rw [realState_previous_left]
    rfl
  have pr : previousStep realEnv realState.m_right 1
      = { position := { x := 0, y := -1 }, angle := 0, impactTime := 0 } := by
    unfold previousStep
    rw [realState_previous_right]
    rfl
  refine ⟨?_, ?_, ?_, ?_, ?_⟩
  · rw [reGenerateDCMSingle_of_accepted realEnv _ _ _ _ _ _ _ _ _ hl hr rfl, if_pos rfl, pl, pr,
      realEnv_planAndInterpolate 1 10 _ _ (realEnv_interpolateDCMB _ _ _ _)]
    rfl
  · rw [reGenerateSingle_of_accepted realEnv _ _ _ _ _ _ _ _ hl hr rfl, if_pos rfl, pl, pr,
      realEnv_planAndInterpolate 1 10 _ _ (realEnv_interpolateP _ _ _ _ _ _)]
    have hc : correctedStep realEnv.rot
        { position := { x := 0, y := 1 }, angle := 0, impactTime := 0 } { x := 0.05, y := 1 } 4
        = { position := { x := 0.05, y := 1 }, angle := 4 - 2 * Real.pi, impactTime := 0 } :=
      realEnv_correctedStep
    rw [hc]
    rfl
  · have hrun := run_of_trim_ok realEnv
      (Method.reGenerateDCMBoth 1 0.01 10 { x := 0, y := 0 } { x := 0, y := 0 }
        { x := 0.05, y := 1 } 4 { x := 0, y := -1 } 0) realState rfl hl hr
    change Unicycle.reGenerateDCMBoth realEnv 1 0.01 10 { x := 0, y := 0 } { x := 0, y := 0 }
      { x := 0.05, y := 1 } 4 { x := 0, y := -1 } 0 realState = _ at hrun
    rw [hrun]
    simp only [Method.stages, Method.preStages, Method.prelude, Method.horizon,
      Method.endTime?, Method.interpolation, Method.initTime, List.cons_append,
      List.nil_append, List.drop_succ_cons, List.drop_zero, pl, pr]
    have h1 : insertLeft realEnv
        { position := { x := 0.05, y := 1 }, angle := 4, impactTime := 0 }
        { realState with
          m_left := [{ position := { x := 0, y := 1 }, angle := 0, impactTime := 0 }],
          m_right := [{ position := { x := 0, y := -1 }, angle := 0, impactTime := 0 }] }
        = (true, { realState with
          m_left := [{ position := { x := 0.05, y := 1 }, angle := 4, impactTime := 0 }],
          m_right := [] }) := rfl
    have h2 : addRight realEnv
        { position := { x := 0, y := -1 }, angle := 0, impactTime := 0 }
        { realState with
          m_left := [{ position := { x := 0.05, y := 1 }, angle := 4, impactTime := 0 }],
          m_right := [] }
        = (true, { realState with
          m_left := [{ position := { x := 0.05, y := 1 }, angle := 4, impactTime := 0 }],
          m_right := [{ position := { x := 0, y := -1 }, angle := 0, impactTime := 0 }] }) :=
      rfl
    rw [runStages_cons_of_true _ _ _ _ h1, runStages_cons_of_true _ _ _ _ h2]
    rfl
  · rw [realRotation_yaw_delta, sub_zero, wrap_four, zero_add]
  · have := Real.pi_pos
    intro h
    linarith

/-- Counterexample to C9: the caller passed one footprint object for both
feet to `generateAndInterpolate`, so `m_left` and `m_right` refer to it.  At
the start time 15 the trimming leaves the step at time 0 in it; correcting the
left foot clears and refills that one object, so the right sequence handed to
the planner is the corrected step, not the step the trimming had left. -/
theorem single_foot_correction_aliased :
    generateAndInterpolateFeetSame demoSharedEnv demoSharedState.m_shared 0 1 demoState
        = (true, demoSharedState)
      ∧ FootPrint.keepOnlyPresentStep demoSharedState.m_shared 15
        = (true, [{ position := { x := 0, y := 1 }, angle := 0, impactTime := 0 }])
      ∧ reGenerateSingleShared demoSharedEnv 15 1 50 demoWeight true { x := 0, y := 2 } 3
          demoSharedState
        = planAndInterpolateShared demoSharedEnv 15 50
            (interpolatePShared demoEnv 15 1 demoWeight
              { position := { x := 0, y := 1 }, angle := 0, impactTime := 0 }
              { position := { x := 0, y := 1 }, angle := 0, impactTime := 0 })
            { demoSharedState with
              m_shared := [{ position := { x := 0, y := 2 }, angle := 3, impactTime := 0 }] }
      ∧ (reGenerateSingleShared demoSharedEnv 15 1 50 demoWeight true { x := 0, y := 2 } 3
          demoSharedState).1 = true
      ∧ (reGenerateSingleShared demoSharedEnv 15 1 50 demoWeight true { x := 0, y := 2 } 3
          demoSharedState).2.m_shared
        = [{ position := { x := 0, y := 2 }, angle := 3, impactTime := 0 }]
      ∧ [({ position := { x := 0, y := 2 }, angle := 3, impactTime := 0 } : Step ℤ)]
        ≠ (FootPrint.keepOnlyPresentStep demoSharedState.m_shared 15).2 := by
  decide

/-- C9, amended: in the `reGenerate` and `reGenerateDCM` overloads with a
`correctLeft` flag, when the trimming succeeds and `addStep` accepts the
corrected step, the rest of the call (`setEndTime`, then the planner on
`m_left` and `m_right`, then the interpolation) runs on these sequences.  When
`m_left` and `m_right` are two objects: for `correctLeft = true` the left
sequence holds the one corrected step, built from the left foot's previous
step, and the right sequence is as the trimming left it; for
`correctLeft = false` the right sequence holds the one corrected step, built
from the right foot's previous step, and the left sequence is as the trimming
left it.  When both pointers refer to one object, that object, seen through
either pointer, holds the one corrected step for either value of
`correctLeft`. -/
theorem single_foot_correction_frame {α P I R : Type} [LinearOrder α] [Add α]
    (E : SharedEnv α P I R) (t dT e : α) (w : InitialState α) (bp bv : Vector2 α)
    (m : Vector2 α) (a : α) :
    (∀ s : Generator α P I,
      (FootPrint.keepOnlyPresentStep s.m_left t).1 = true →
      (FootPrint.keepOnlyPresentStep s.m_right t).1 = true →
      ((FootPrint.addStep E.valid []
            (correctedStep E.rot (previousStep E.toEnv s.m_left t) m a)).1 = true →
          Unicycle.reGenerateSingle E.toEnv t dT e w true m a s =
            planAndInterpolate E.toEnv t e
              (interpolateP E.toEnv t dT w (previousStep E.toEnv s.m_left t)
                (previousStep E.toEnv s.m_right t))
              { s with m_left := [correctedStep E.rot (previousStep E.toEnv s.m_left t) m a],
                       m_right := (FootPrint.keepOnlyPresentStep s.m_right t).2 })
      ∧ ((FootPrint.addStep E.valid []
            (correctedStep E.rot (previousStep E.toEnv s.m_right t) m a)).1 = true →
          Unicycle.reGenerateSingle E.toEnv t dT e w false m a s =
            planAndInterpolate E.toEnv t e
              (interpolateP E.toEnv t dT w (previousStep E.toEnv s.m_left t)
                (previousStep E.toEnv s.m_right t))
              { s with m_left := (FootPrint.keepOnlyPresentStep s.m_left t).2,
                       m_right :=
                         [correctedStep E.rot (previousStep E.toEnv s.m_right t) m a] })
      ∧ ((FootPrint.addStep E.valid []
            (measuredFoot (previousStep E.toEnv s.m_left t) m a)).1 = true →
          Unicycle.reGenerateDCMSingle E.toEnv t dT e bp bv true m a s =
            planAndInterpolate E.toEnv t e
              (interpolateDCMB E.toEnv t dT { initialPosition := bp, initialVelocity := bv })
              { s with m_left := [measuredFoot (previousStep E.toEnv s.m_left t) m a],
                       m_right := (FootPrint.keepOnlyPresentStep s.m_right t).2 })
      ∧ ((FootPrint.addStep E.valid []
            (measuredFoot (previousStep E.toEnv s.m_right t) m a)).1 = true →
          Unicycle.reGenerateDCMSingle E.toEnv t dT e bp bv false m a s =
            planAndInterpolate E.toEnv t e
              (interpolateDCMB E.toEnv t dT { initialPosition := bp, initialVelocity := bv })
              { s with m_left := (FootPrint.keepOnlyPresentStep s.m_left t).2,
                       m_right := [measuredFoot (previousStep E.toEnv s.m_right t) m a] }))
    ∧ (∀ (s : SharedGenerator α P I) (correctLeft : Bool),
      (FootPrint.keepOnlyPresentStep s.m_shared t).1 = true →
      ((FootPrint.addStep E.valid []
            (correctedStep E.rot (previousStep E.toEnv s.m_shared t) m a)).1 = true →
          reGenerateSingleShared E t dT e w correctLeft m a s =
            planAndInterpolateShared E t e
              (interpolatePShared E.toEnv t dT w (previousStep E.toEnv s.m_shared t)
                (previousStep E.toEnv s.m_shared t))
              { s with
                m_shared := [correctedStep E.rot (previousStep E.toEnv s.m_shared t) m a] })
      ∧ ((FootPrint.addStep E.valid []
            (measuredFoot (previousStep E.toEnv s.m_shared t) m a)).1 = true →
          reGenerateDCMSingleShared E t dT e bp bv correctLeft m a s =
            planAndInterpolateShared E t e
              (interpolateDCMBShared E.toEnv t dT
                { initialPosition := bp, initialVelocity := bv })
              { s with m_shared := [measuredFoot (previousStep E.toEnv s.m_shared t) m a] }))
    := by
  constructor
  · intro s hl hr
    have el := keepOnlyPresentStep_of_true E.toEnv s.m_left t hl
    have er := keepOnlyPresentStep_of_true E.toEnv s.m_right t hr
    rw [el, er]
    simp only [addStep_nil]
    refine ⟨fun h => ?_, fun h => ?_, fun h => ?_, fun h => ?_⟩
    · exact reGenerateSingle_of_accepted E.toEnv t dT e w true m a s hl hr h
    · exact reGenerateSingle_of_accepted E.toEnv t dT e w false m a s hl hr h
    · exact reGenerateDCMSingle_of_accepted E.toEnv t dT e bp bv true m a s hl hr h
    · exact reGenerateDCMSingle_of_accepted E.toEnv t dT e bp bv false m a s hl hr h
  · intro s c h
    simp only [addStep_nil]
    exact ⟨fun hacc => reGenerateSingleShared_of_accepted E t dT e w c m a s h hacc,
      fun hacc => reGenerateDCMSingleShared_of_accepted E t dT e bp bv c m a s h hacc⟩

/-- Witness of the amended C9.  With two objects, at the start time 15 both
feet have a present step; the left foot is corrected with the measured position
`(0, 2)` and angle 3, and the rest of the call runs with the left sequence
holding the corrected step and the right sequence holding its present step.
With one object behind both pointers, the same correction leaves that object
holding the corrected step. -/
theorem single_foot_correction_frame_witness :
    ((FootPrint.keepOnlyPresentStep demoState.m_left 15).1 = true
      ∧ (FootPrint.keepOnlyPresentStep demoState.m_right 15).1 = true
      ∧ (FootPrint.addStep demoEnv.valid []
          (correctedStep demoEnv.rot (previousStep demoEnv demoState.m_left 15)
            { x := 0, y := 2 } 3)).1 = true
      ∧ Unicycle.reGenerateSingle demoEnv 15 1 50 demoWeight true { x := 0, y := 2 } 3 demoState
        = planAndInterpolate demoEnv 15 50
            (interpolateP demoEnv 15 1 demoWeight (previousStep demoEnv demoState.m_left 15)
              (previousStep demoEnv demoState.m_right 15))
            { demoState with
              m_left := [correctedStep demoEnv.rot (previousStep demoEnv demoState.m_left 15)
                { x := 0, y := 2 } 3],
              m_right := (FootPrint.keepOnlyPresentStep demoState.m_right 15).2 })
    ∧ ((FootPrint.keepOnlyPresentStep demoSharedState.m_shared 15).1 = true
      ∧ (FootPrint.addStep demoEnv.valid []
          (correctedStep demoEnv.rot (previousStep demoEnv demoSharedState.m_shared 15)
            { x := 0, y := 2 } 3)).1 = true
      ∧ reGenerateSingleShared demoSharedEnv 15 1 50 demoWeight false { x := 0, y := 2 } 3
          demoSharedState
        = planAndInterpolateShared demoSharedEnv 15 50
            (interpolatePShared demoEnv 15 1 demoWeight
              (previousStep demoEnv demoSharedState.m_shared 15)
              (previousStep demoEnv demoSharedState.m_shared 15))
            { demoSharedState with
              m_shared :=
                [correctedStep demoEnv.rot (previousStep demoEnv demoSharedState.m_shared 15)
                  { x := 0, y := 2 } 3] }) :=
  ⟨⟨by decide, by decide, by decide,
    ((single_foot_correction_frame demoSharedEnv 15 1 50 demoWeight { x := 0, y := 0 }
      { x := 0, y := 0 } { x := 0, y := 2 } 3).1 demoState (by decide) (by decide)).1
      (by decide)⟩,
   ⟨by decide, by decide,
    ((single_foot_correction_frame demoSharedEnv 15 1 50 demoWeight { x := 0, y := 0 }
      { x := 0, y := 0 } { x := 0, y := 2 } 3).2 demoSharedState false (by decide)).1
      (by decide)⟩⟩

/-- Counterexample to C6: the planner's end time is 100 before the call
`generateAndInterpolate(initTime = 0, dT = 1, endTime = 50)` and 50 after it,
and likewise after a successful `reGenerate` with end time 50. -/
theorem planner_end_time_overwritten :
    demoState.planner = 100
      ∧ (Unicycle.generateAndInterpolateHorizon demoEnv 0 1 50 demoState).2.planner = 50
      ∧ (Unicycle.reGenerate demoEnv 15 1 50 demoWeight demoState).1 = true
      ∧ (Unicycle.reGenerate demoEnv 15 1 50 demoWeight demoState).2.planner = 50 := by
  decide

/-- C6, amended: a generation or replanning call changes the planner only
through the planner calls it makes.  When a trimming or measured-step stage
fails the planner is as it was.  Otherwise an overload without an end time
leaves the planner as `computeNewSteps` left it, and an overload with an end
time calls `setEndTime(endTime)` on the planner, which may overwrite its end
time, and then, when that returned `true`, `computeNewSteps`. -/
theorem planner_frame {α P I R : Type} [LinearOrder α] [Add α]
    (E : Env α P I R) (m : Method α) (s : Generator α P I) :
    (¬ AllPass (m.prelude E s) (m.prepare s) → (m.run E s).2.planner = s.planner)
    ∧ (AllPass (m.prelude E s) (m.prepare s) →
        (m.run E s).2.planner =
          match m.endTime? with
          | none =>
            (E.computeNewSteps s.planner (stateAfter (m.prelude E s) (m.prepare s)).m_left
              (stateAfter (m.prelude E s) (m.prepare s)).m_right m.initTime).planner
          | some e =>
            if (E.setEndTime s.planner e).1 = true then
              (E.computeNewSteps (E.setEndTime s.planner e).2
                (stateAfter (m.prelude E s) (m.prepare s)).m_left
                (stateAfter (m.prelude E s) (m.prepare s)).m_right m.initTime).planner
            else (E.setEndTime s.planner e).2) := by
  have hst : m.stages E s = m.prelude E s
      ++ (m.horizon E ++ [computeNewSteps E m.initTime, m.interpolation E s]) := by
    unfold Method.stages Method.preStages
    simp only [List.append_assoc, List.cons_append, List.nil_append]
  have hkeep : ∀ f ∈ m.prelude E s, ∀ s1, (f s1).2.planner = s1.planner :=
    fun f hf s1 => (prelude_keeps E m s f hf s1).1
  rw [run_eq_runStages, hst]
  constructor
  · intro h
    rw [runStages_append_of_not_allPass _ _ _ h,
      runStages_keeps (fun g => g.planner) _ hkeep, prepare_planner]
  · intro h
    have hp : (stateAfter (m.prelude E s) (m.prepare s)).planner = s.planner := by
      rw [stateAfter_keeps (fun g => g.planner) _ hkeep, prepare_planner]
    rw [runStages_append_of_allPass _ _ _ h]
    unfold Method.horizon
    cases he : m.endTime? with
    | none =>
      simp only [List.nil_append]
      rw [planner_after_plan E _ _ (interpolation_planner E m s), hp]
    | some e =>
      simp only [List.cons_append, List.nil_append]
      rw [planner_after_horizon E _ _ _ (interpolation_planner E m s), hp]

/-- Witness of the amended C6: replanning at the start time 15 with the end
time 50 passes the trimming stages and leaves the planner with the end time
50. -/
theorem planner_frame_witness :
    AllPass ((Method.reGenerate 15 1 50 demoWeight).prelude demoEnv demoState) demoState
      ∧ ((Method.reGenerate 15 1 50 demoWeight).run demoEnv demoState).2.planner = 50 :=
  ⟨⟨by decide, by decide, trivial⟩,
    (planner_frame demoEnv (Method.reGenerate 15 1 50 demoWeight) demoState).2
      ⟨by decide, by decide, trivial⟩⟩

/-- C7: every generation and replanning overload is its stages run in order
(trimming and measured-step insertion for replanning, `setEndTime` where used,
`computeNewSteps`, then the interpolation), stopping at the first stage that
returns `false`.  It returns `true` exactly when every stage returns `true`;
when a stage fails the call returns `false` in the state that stage left, so
no later stage is invoked; and when a stage before the interpolation fails, in
particular when `computeNewSteps` fails, the interpolator with its output
buffers is as it was before the call. -/
theorem all_or_nothing {α P I R : Type} [LinearOrder α] [Add α]
    (E : Env α P I R) (m : Method α) (s : Generator α P I) :
    m.run E s = runStages (m.stages E s) (m.prepare s)
    ∧ ((m.run E s).1 = true ↔ AllPass (m.stages E s) (m.prepare s))
    ∧ (∀ pre f post, m.stages E s = pre ++ f :: post → AllPass pre (m.prepare s) →
        (f (stateAfter pre (m.prepare s))).1 = false →
        m.run E s = (false, (f (stateAfter pre (m.prepare s))).2))
    ∧ (¬ AllPass (m.preStages E s) (m.prepare s) →
        (m.run E s).1 = false ∧ (m.run E s).2.interp = s.interp)
    ∧ (AllPass (m.prelude E s ++ m.horizon E) (m.prepare s) →
        (computeNewSteps E m.initTime
          (stateAfter (m.prelude E s ++ m.horizon E) (m.prepare s))).1 = false →
        (m.run E s).1 = false ∧ (m.run E s).2.interp = s.interp) := by
  have hrun := run_eq_runStages E m s
  have hpre : ¬ AllPass (m.preStages E s) (m.prepare s) →
      (m.run E s).1 = false ∧ (m.run E s).2.interp = s.interp := by
    intro h
    have e : m.run E s = runStages (m.preStages E s) (m.prepare s) := by
      rw [hrun]
      exact runStages_append_of_not_allPass _ _ _ h
    constructor
    · rw [e]
      cases hb : (runStages (m.preStages E s) (m.prepare s)).1
      · rfl
      · exact absurd ((runStages_true_iff _ _).1 hb) h
    · rw [e, runStages_keeps (fun g => g.interp) _ (preStages_keep_interp E m s),
        prepare_interp]
  refine ⟨hrun, ?_, ?_, hpre, ?_⟩
  · rw [hrun]
    exact runStages_true_iff _ _
  · intro pre f post hst hp hf
    rw [hrun, hst]
    exact runStages_stop pre post f _ hp hf
  · intro hp hf
    apply hpre
    intro hall
    unfold Method.preStages at hall
    have h1 := runStages_append_of_allPass _ [computeNewSteps E m.initTime] _ hp
    have h2 := runStages_of_allPass _ _ hall
    rw [h1, runStages_cons] at h2
    rcases h3 : computeNewSteps E m.initTime
      (stateAfter (m.prelude E s ++ m.horizon E) (m.prepare s)) with ⟨_ | _, s3⟩
    · rw [h3] at h2
      simp at h2
    · rw [h3] at hf
      simp at hf

/-- Witness of C7: with a planner that fails, the fresh generation over a
horizon passes `setEndTime`, fails in `computeNewSteps`, returns `false` and
leaves the output buffer empty as it was. -/
theorem all_or_nothing_witness :
    (computeNewSteps failingPlannerEnv 0 (setEndTime failingPlannerEnv 50
        { demoState with m_left := [], m_right := [] }).2).1 = false
      ∧ ((Method.generateAndInterpolateHorizon 0 1 50).run failingPlannerEnv demoState).1 = false
      ∧ ((Method.generateAndInterpolateHorizon 0 1 50).run failingPlannerEnv demoState).2.interp
          = [] :=
  ⟨by decide,
    (all_or_nothing failingPlannerEnv (Method.generateAndInterpolateHorizon 0 1 50)
      demoState).2.2.2.2 ⟨by decide, trivial⟩ (by decide)⟩

/-- C8: the fresh generation over a horizon, `generateAndInterpolate(initTime,
dT, endTime)` and `generateAndInterpolateDCM(initTime, dT, endTime)`, does not
depend on the retained sequences: two generators with the same planner and
interpolator and any retained sequences give the same flag and the same
generator afterwards, because both sequences are cleared first.  Hence, when
the planner and the interpolator are functions of their arguments and
configuration only, calling it a second time with the same arguments gives the
same result as the first call. -/
theorem fresh_generation_idempotent {α P I R : Type} [LinearOrder α] [Add α]
    (E : Env α P I R) (initTime dT endTime : α) :
    (∀ (l1 r1 l2 r2 : FootPrint α) (p : P) (i : I),
        Unicycle.generateAndInterpolateHorizon E initTime dT endTime
            { m_left := l1, m_right := r1, planner := p, interp := i }
          = Unicycle.generateAndInterpolateHorizon E initTime dT endTime
            { m_left := l2, m_right := r2, planner := p, interp := i }
        ∧ Unicycle.generateAndInterpolateDCMHorizon E initTime dT endTime
            { m_left := l1, m_right := r1, planner := p, interp := i }
          = Unicycle.generateAndInterpolateDCMHorizon E initTime dT endTime
            { m_left := l2, m_right := r2, planner := p, interp := i })
    ∧ (E.Repeatable → ∀ s : Generator α P I,
        Unicycle.generateAndInterpolateHorizon E initTime dT endTime
            (Unicycle.generateAndInterpolateHorizon E initTime dT endTime s).2
          = Unicycle.generateAndInterpolateHorizon E initTime dT endTime s
        ∧ Unicycle.generateAndInterpolateDCMHorizon E initTime dT endTime
            (Unicycle.generateAndInterpolateDCMHorizon E initTime dT endTime s).2
          = Unicycle.generateAndInterpolateDCMHorizon E initTime dT endTime s) := by
  refine ⟨fun l1 r1 l2 r2 p i => ⟨rfl, rfl⟩, ?_⟩
  rintro ⟨hset, hplan, hint, hdcm⟩ s
  constructor
  · exact horizon_tail_repeat E initTime endTime (interpolate E initTime dT)
      (fun i l r => E.interpolate i l r initTime dT) (fun _ => rfl) hset hplan
      (fun i l r => hint i l r initTime dT) s
  · exact horizon_tail_repeat E initTime endTime (interpolateDCM E initTime dT)
      (fun i l r => E.interpolateDCM i l r initTime dT) (fun _ => rfl) hset hplan
      (fun i l r => hdcm i l r initTime dT) s

/-- Witness of C8: the stub environment is repeatable, and a second fresh
generation over the horizon 50 from the state left by the first gives the same
result. -/
theorem fresh_generation_idempotent_witness :
    demoEnv.Repeatable
      ∧ Unicycle.generateAndInterpolateHorizon demoEnv 0 1 50
          (Unicycle.generateAndInterpolateHorizon demoEnv 0 1 50 demoState).2
        = Unicycle.generateAndInterpolateHorizon demoEnv 0 1 50 demoState :=
  have hrep : demoEnv.Repeatable :=
    ⟨fun _ _ => rfl, fun _ _ _ _ => rfl, fun _ _ _ _ _ => rfl, fun _ _ _ _ _ => rfl⟩
  ⟨hrep, ((fresh_generation_idempotent demoEnv 0 1 50).2 hrep demoState).1⟩

/-- C10: over exact real arithmetic, the angle `c` of the step that
`clearAndAddMeasuredStep` builds from a previous step with angle `p` and a
measured angle `a` differs from `a` by a whole number of turns and lies within
`π` of `p`; hence it equals `a` whenever `|a - p| < π`, and among all the
representatives `a + 2πk` of the measured angle it is one closest to `p`. -/
theorem corrected_angle_wrapping (foot : FootPrint ℝ) (prev : Step ℝ) (m : Vector2 ℝ) (a : ℝ) :
    ∃ c : ℝ,
      clearAndAddMeasuredStep realRotation (fun _ => true) foot prev m a
          = (true, [{ position := m, angle := c, impactTime := prev.impactTime }])
      ∧ (∃ k : ℤ, c = a + 2 * Real.pi * k)
      ∧ |c - prev.angle| ≤ Real.pi
      ∧ (|a - prev.angle| < Real.pi → c = a)
      ∧ (∀ k : ℤ, |c - prev.angle| ≤ |a + 2 * Real.pi * k - prev.angle|) := by
  have hpi := Real.pi_pos
  have hmem := wrap_mem (a - prev.angle)
  have hdiv := toIocMod_add_toIocDiv_zsmul Real.two_pi_pos (-Real.pi) (a - prev.angle)
  rw [zsmul_eq_mul] at hdiv
  set d := toIocMod Real.two_pi_pos (-Real.pi) (a - prev.angle) with hd
  set z := toIocDiv Real.two_pi_pos (-Real.pi) (a - prev.angle) with hz
  refine ⟨prev.angle + d, ?_, ⟨-z, ?_⟩, ?_, ?_, ?_⟩
  · rw [clearAndAddMeasuredStep_eq]
    simp only [if_true, correctedStep, realRotation_yaw_delta, ← hd]
  · push_cast
    linarith
  · rw [add_sub_cancel_left, abs_le]
    exact ⟨hmem.1.le, hmem.2⟩
  · intro h
    rw [abs_lt] at h
    have := wrap_eq_self h.1 h.2.le
    rw [← hd] at this
    rw [this]
    ring
  · intro k
    rw [add_sub_cancel_left]
    have e : a + 2 * Real.pi * k - prev.angle = d + 2 * Real.pi * ((z + k : ℤ) : ℝ) := by
      push_cast
      linarith
    rw [e]
    have hd_abs : |d| ≤ Real.pi := abs_le.2 ⟨hmem.1.le, hmem.2⟩
    rcases lt_trichotomy (z + k) 0 with hneg | hzero | hpos
    · have h1 : ((z + k : ℤ) : ℝ) ≤ -1 := by exact_mod_cast Int.le_sub_one_of_lt hneg
      have h2 : d + 2 * Real.pi * ((z + k : ℤ) : ℝ) ≤ -Real.pi := by
        have := mul_le_mul_of_nonneg_left h1 (by linarith : (0 : ℝ) ≤ 2 * Real.pi)
        linarith [hmem.2]
      calc |d| ≤ Real.pi := hd_abs
        _ ≤ -(d + 2 * Real.pi * ((z + k : ℤ) : ℝ)) := by linarith
        _ ≤ |d + 2 * Real.pi * ((z + k : ℤ) : ℝ)| := neg_le_abs _
    · rw [hzero]
      simp
    · have h1 : (1 : ℝ) ≤ ((z + k : ℤ) : ℝ) := by exact_mod_cast Int.add_one_le_of_lt hpos
      have h2 : Real.pi ≤ d + 2 * Real.pi * ((z + k : ℤ) : ℝ) := by
        have := mul_le_mul_of_nonneg_left h1 (by linarith : (0 : ℝ) ≤ 2 * Real.pi)
        linarith [hmem.1]
      calc |d| ≤ Real.pi := hd_abs
        _ ≤ d + 2 * Real.pi * ((z + k : ℤ) : ℝ) := h2
        _ ≤ |d + 2 * Real.pi * ((z + k : ℤ) : ℝ)| := le_abs_self _

/-- Witness of C10: previous angle 0 and measured angle 1, less than `π`
apart, give the corrected angle 1. -/
theorem corrected_angle_wrapping_witness :
    |(1 : ℝ) - 0| < Real.pi
      ∧ ∃ c : ℝ,
        clearAndAddMeasuredStep realRotation (fun _ => true) []
            { position := { x := 0, y := 1 }, angle := 0, impactTime := 0 }
            { x := 0.05, y := 1 } 1
          = (true, [{ position := { x := 0.05, y := 1 }, angle := c, impactTime := 0 }])
        ∧ c = 1 :=
  have hlt : |(1 : ℝ) - 0| < Real.pi := by
    have := Real.pi_gt_three
    rw [sub_zero, abs_one]
    linarith
  ⟨hlt,
    match corrected_angle_wrapping []
      { position := { x := 0, y := 1 }, angle := 0, impactTime := 0 } { x := 0.05, y := 1 } 1 with
    | ⟨c, h1, _, _, h4, _⟩ => ⟨c, h1, h4 hlt⟩⟩

/-- C11: the fresh generations that take `leftFoot` and `rightFoot` install the
supplied footprints as the retained sequences before anything else runs.  The
previously retained sequences play no part in the call, and afterwards the
retained sequences are the supplied ones, as the planner (which works on them
in place) left them when it was reached and untouched when `setEndTime`
failed, whether the call returned `true` or `false`.  In the concrete run a
generation that fails in the planner leaves the supplied footprints retained,
and a later `reGenerate` trims them and succeeds, although it would have
failed on the plan retained before. -/
theorem supplied_footprints_retained :
    (∀ (α P I R : Type) [LinearOrder α] [Add α] (E : Env α P I R)
        (leftFoot rightFoot : FootPrint α) (initTime dT endTime : α) (w : InitialState α)
        (s : Generator α P I),
        ((generateAndInterpolateFeetW E leftFoot rightFoot initTime dT w s).2.m_left
            = (E.computeNewSteps s.planner leftFoot rightFoot initTime).left
          ∧ (generateAndInterpolateFeetW E leftFoot rightFoot initTime dT w s).2.m_right
            = (E.computeNewSteps s.planner leftFoot rightFoot initTime).right)
        ∧ ((generateAndInterpolateFeet E leftFoot rightFoot initTime dT s).2.m_left
            = (E.computeNewSteps s.planner leftFoot rightFoot initTime).left
          ∧ (generateAndInterpolateFeet E leftFoot rightFoot initTime dT s).2.m_right
            = (E.computeNewSteps s.planner leftFoot rightFoot initTime).right)
        ∧ ((generateAndInterpolateFeetHorizon E leftFoot rightFoot initTime dT endTime s).2.m_left
            = (if (E.setEndTime s.planner endTime).1 = true then
                (E.computeNewSteps (E.setEndTime s.planner endTime).2 leftFoot rightFoot
                  initTime).left
              else leftFoot)
          ∧ (generateAndInterpolateFeetHorizon E leftFoot rightFoot initTime dT endTime
              s).2.m_right
            = (if (E.setEndTime s.planner endTime).1 = true then
                (E.computeNewSteps (E.setEndTime s.planner endTime).2 leftFoot rightFoot
                  initTime).right
              else rightFoot))
        ∧ ((generateAndInterpolateDCMFeetHorizon E leftFoot rightFoot initTime dT endTime
              s).2.m_left
            = (if (E.setEndTime s.planner endTime).1 = true then
                (E.computeNewSteps (E.setEndTime s.planner endTime).2 leftFoot rightFoot
                  initTime).left
              else leftFoot)
          ∧ (generateAndInterpolateDCMFeetHorizon E leftFoot rightFoot initTime dT endTime
              s).2.m_right
            = (if (E.setEndTime s.planner endTime).1 = true then
                (E.computeNewSteps (E.setEndTime s.planner endTime).2 leftFoot rightFoot
                  initTime).right
              else rightFoot))
        ∧ (∀ oldLeft oldRight : FootPrint α,
            generateAndInterpolateFeetW E leftFoot rightFoot initTime dT w
                { s with m_left := oldLeft, m_right := oldRight }
              = generateAndInterpolateFeetW E leftFoot rightFoot initTime dT w s
            ∧ generateAndInterpolateFeet E leftFoot rightFoot initTime dT
                { s with m_left := oldLeft, m_right := oldRight }
              = generateAndInterpolateFeet E leftFoot rightFoot initTime dT s
            ∧ generateAndInterpolateFeetHorizon E leftFoot rightFoot initTime dT endTime
                { s with m_left := oldLeft, m_right := oldRight }
              = generateAndInterpolateFeetHorizon E leftFoot rightFoot initTime dT endTime s
            ∧ generateAndInterpolateDCMFeetHorizon E leftFoot rightFoot initTime dT endTime
                { s with m_left := oldLeft, m_right := oldRight }
              = generateAndInterpolateDCMFeetHorizon E leftFoot rightFoot initTime dT endTime
                  s))
    ∧ ((generateAndInterpolateFeetHorizon horizonEnv suppliedLeft suppliedRight 3 1 3
          demoState).1 = false
      ∧ (generateAndInterpolateFeetHorizon horizonEnv suppliedLeft suppliedRight 3 1 3
          demoState).2.m_left = suppliedLeft
      ∧ (generateAndInterpolateFeetHorizon horizonEnv suppliedLeft suppliedRight 3 1 3
          demoState).2.m_right = suppliedRight
      ∧ (Unicycle.reGenerate horizonEnv 5 1 50 demoWeight demoState).1 = false
      ∧ Unicycle.reGenerate horizonEnv 5 1 50 demoWeight
          (generateAndInterpolateFeetHorizon horizonEnv suppliedLeft suppliedRight 3 1 3
            demoState).2
        = (true, { m_left := suppliedLeft, m_right := suppliedRight, planner := 50,
                   interp := [5, 1] })) := by
  refine ⟨fun α P I R _ _ E l r t dT e w s => ⟨?_, ?_, ?_, ?_, ?_⟩, by decide⟩
  · exact feet_after_plan E t (interpolateW E t dT w) (fun _ => ⟨rfl, rfl⟩)
      { s with m_left := l, m_right := r }
  · exact feet_after_plan E t (interpolate E t dT) (fun _ => ⟨rfl, rfl⟩)
      { s with m_left := l, m_right := r }
  · exact feet_after_horizon E t e (interpolate E t dT) (fun _ => ⟨rfl, rfl⟩)
      { s with m_left := l, m_right := r }
  · exact feet_after_horizon E t e (interpolateDCM E t dT) (fun _ => ⟨rfl, rfl⟩)
      { s with m_left := l, m_right := r }
  · exact fun _ _ => ⟨rfl, rfl, rfl, rfl⟩

end Unicycle
